import Mathlib

/-!
go-rsync: a shallow embedding of the progress scanner, the copy orchestrator
and the argument builder.

Source files: `info.go`, `matcher.go`, `rsync.go`, `ssh.go`.

Conventions of the embedding
* Go `string` values are Lean `String`s (the text is taken to be valid UTF-8).
* Go `int64` values are `Int`s; every arithmetic result is reduced with
  `wrapInt64`, so two's-complement wrap-around is explicit.
* Go `float64` percentages are exact rationals (`ℚ`).
* A Go runtime fault (nil dereference, index out of range) is `none` in an
  `Option` result.
* The scanners that `Info.Run` starts run next to the caller and are never
  joined. A run is described by a schedule (`ProcRun`): which scanner steps
  land before `Cmd.Run` returns, which between the closing writes of `Copy`,
  and which after them. One loop body of a scanner is one step.
-/

namespace GoRsync

deriving instance DecidableEq for Except

/-! ## Machine integers -/

/-- Largest `uint64`. -/
def maxUint64 : Nat := 18446744073709551615

/-- Two's-complement reduction of an integer to the `int64` range. -/
def wrapInt64 (x : Int) : Int := (x + 9223372036854775808) % 18446744073709551616 - 9223372036854775808

/-! ## `strconv.ParseInt(s, 10, 64)` and `strings.Replace(s, ",", "", -1)` -/

/-- The two error kinds of `strconv`: `ErrSyntax` and `ErrRange`. -/
inductive NumError where
  | syntaxErr
  | rangeErr
  deriving DecidableEq, Repr

/-- Value of one character as a digit in `strconv.ParseUint`: decimal digits
give `0..9`, ASCII letters give `10..35`, anything else has no value. -/
def digitVal (c : Char) : Option Nat :=
  if 48 ≤ c.toNat ∧ c.toNat ≤ 57 then some (c.toNat - 48)
  else if 97 ≤ c.toNat ∧ c.toNat ≤ 122 then some (c.toNat - 97 + 10)
  else if 65 ≤ c.toNat ∧ c.toNat ≤ 90 then some (c.toNat - 65 + 10)
  else none

/-- The digit loop of `strconv.ParseUint` for base 10 and 64 bits, with the
accumulator `n`. `cutoff` is `maxUint64 / 10 + 1`. -/
def parseUintLoop : List Char → Nat → Except NumError Nat
  | [], n => .ok n
  | c :: cs, n =>
    match digitVal c with
    | none => .error .syntaxErr
    | some d =>
      if d ≥ 10 then .error .syntaxErr
      else if n ≥ maxUint64 / 10 + 1 then .error .rangeErr
      else
        let n10 := n * 10
        let n1 := (n10 + d) % 18446744073709551616
        if n1 < n10 ∨ n1 > maxUint64 then .error .rangeErr
        else parseUintLoop cs n1

/-- `strconv.ParseUint(s, 10, 64)`. -/
def parseUint (s : List Char) : Except NumError Nat :=
  match s with
  | [] => .error .syntaxErr
  | _ :: _ => parseUintLoop s 0

/-- `strconv.ParseInt(s, 10, 64)`. -/
def parseInt (s : List Char) : Except NumError Int :=
  match s with
  | [] => .error .syntaxErr
  | c :: rest =>
    let neg : Bool := decide (c = '-')
    let body : List Char := if c = '+' ∨ c = '-' then rest else s
    match parseUint body with
    | .error .syntaxErr => .error .syntaxErr
    | .error .rangeErr =>
      -- `un` is `maxUint64`, beyond both cutoffs
      .error .rangeErr
    | .ok un =>
      if !neg ∧ un ≥ 9223372036854775808 then .error .rangeErr
      else if neg ∧ un > 9223372036854775808 then .error .rangeErr
      else .ok (if neg then -(un : Int) else (un : Int))

/-- `strings.Replace(str, ",", "", -1)`: every comma is deleted. -/
def removeCommas (s : List Char) : List Char := s.filter (fun c => c ≠ ',')

/-- `convertBytesNum` of `info.go`. -/
def convertBytesNum (str : String) : Int :=
  let substr := removeCommas str.toList
  match parseInt substr with
  | .error _ => 0
  | .ok total => total

/-! ## The `regexp` package, as far as `matcher.go` uses it

The four patterns of `info.go` use literals, `\d`, `.`, concatenation, greedy
`*` and `+`, the counted repetition `.{2}` and capture groups. `Regex` is their
abstract syntax and `Regex.run` a backtracking matcher with Go's
leftmost-first preference order. -/

/-- Abstract syntax of the regular expressions that occur in the program. -/
inductive Regex where
  | lit (c : Char)
  | digit
  | anyNotNL
  | cat (a b : Regex)
  | star (r : Regex)
  | plus (r : Regex)
  | group (i : Nat) (r : Regex)
  deriving Repr

/-- Capture slots: slot `i` holds the text of group `i`, if the group took
part in the match. -/
abbrev Caps := List (Option (List Char))

/-- Greedy iteration of `step`: as many rounds as possible first, fewer on
backtracking. A round that consumes no input is not repeated. -/
def starLoop (step : List Char → Caps → (List Char → Caps → Option Caps) → Option Caps) :
    Nat → List Char → Caps → (List Char → Caps → Option Caps) → Option Caps
  | 0, s, c, k => k s c
  | fuel + 1, s, c, k =>
    match step s c (fun s1 c1 =>
        if s1.length < s.length then starLoop step fuel s1 c1 k else none) with
    | some r => some r
    | none => k s c

/-- Backtracking match of a regular expression at the head of `s`, continuing
with `k` on the rest of the input. -/
def Regex.run : Regex → List Char → Caps → (List Char → Caps → Option Caps) → Option Caps
  | .lit ch, s, c, k =>
    match s with
    | x :: xs => if x = ch then k xs c else none
    | [] => none
  | .digit, s, c, k =>
    match s with
    | x :: xs => if 48 ≤ x.toNat ∧ x.toNat ≤ 57 then k xs c else none
    | [] => none
  | .anyNotNL, s, c, k =>
    match s with
    | x :: xs => if x = '\n' then none else k xs c
    | [] => none
  | .cat a b, s, c, k => a.run s c (fun s1 c1 => b.run s1 c1 k)
  | .star r, s, c, k => starLoop r.run (s.length + 1) s c k
  | .plus r, s, c, k => r.run s c (fun s1 c1 => starLoop r.run (s1.length + 1) s1 c1 k)
  | .group i r, s, c, k =>
    r.run s c (fun s1 c1 => k s1 (c1.set i (some (s.take (s.length - s1.length)))))

/-- A compiled `*regexp.Regexp`: the expression and its number of capture
groups (`NumSubexp`). -/
structure Regexp where
  expr : Regex
  numSubexp : Nat
  deriving Repr

/-- One match attempt anchored at the head of `s`; slot 0 is the whole match. -/
def Regexp.matchAt (re : Regexp) (s : List Char) : Option Caps :=
  (Regex.group 0 re.expr).run s (List.replicate (re.numSubexp + 1) none) (fun _ c => some c)

/-- Leftmost match: the first start position at which `matchAt` succeeds. -/
def Regexp.search (re : Regexp) : List Char → Option Caps
  | [] => re.matchAt []
  | x :: xs =>
    match re.matchAt (x :: xs) with
    | some c => some c
    | none => re.search xs

/-- The strings of one match, as `FindAllStringSubmatch` reports them: a group
that did not take part is the empty string. -/
def Caps.strings (c : Caps) : List String :=
  c.map (fun o => match o with
    | some t => String.mk t
    | none => "")

/-- `(*Regexp).Match`. -/
def Regexp.Match (re : Regexp) (data : String) : Bool :=
  (re.search data.toList).isSome

/-- `(*Regexp).FindAllStringSubmatch(data, 1)`: at most one match, the
leftmost one. -/
def Regexp.FindAllStringSubmatch1 (re : Regexp) (data : String) : List (List String) :=
  match re.search data.toList with
  | some c => [c.strings]
  | none => []

/-! ## `matcher.go` -/

/-- The `matcher` struct. -/
structure matcher where
  regExp : Regexp
  deriving Repr

/-- `matcher.Match`. -/
def matcher.Match (m : matcher) (data : String) : Bool :=
  m.regExp.Match data

/-- Go's index expression `xs[i]` on a slice: a runtime fault (`none`) when
`i` is negative or not below the length. -/
def index? (xs : List String) (i : Int) : Option String :=
  if i < 0 then none else xs.get? i.toNat

/-- `matcher.Extract`. The result is `none` when the Go code faults on the
index expression `matches[0][pos]`. -/
def matcher.Extract (m : matcher) (data : String) (pos : Int) : Option String :=
  let found := m.regExp.FindAllStringSubmatch1 data
  match found with
  | [] => some ""
  | m0 :: _ =>
    if (m0.length : Int) < wrapInt64 (pos + 1) then some ""
    else index? m0 pos

/-! ## The four matchers of `info.go` -/

/-- Pattern `\d+(,\d+)*` as capture group `i`, with the inner group `i + 1`. -/
def byteCount (i : Nat) : Regex :=
  .group i (.cat (.plus .digit) (.star (.group (i + 1) (.cat (.lit ',') (.plus .digit)))))

/-- Concatenation of the literal characters of `s`, followed by `r`. -/
def litThen (s : List Char) (r : Regex) : Regex :=
  s.foldr (fun ch acc => .cat (.lit ch) acc) r

/-- `Total file size: (\d+(,\d+)*) bytes`. -/
def totalMatcher : matcher :=
  ⟨⟨litThen "Total file size: ".toList (.cat (byteCount 1) (litThen " byte".toList (.lit 's'))), 2⟩⟩

/-- `Total transferred file size: (\d+(,\d+)*) bytes`. -/
def transMatcher : matcher :=
  ⟨⟨litThen "Total transferred file size: ".toList
      (.cat (byteCount 1) (litThen " byte".toList (.lit 's'))), 2⟩⟩

/-- `(\d+(,\d+)*) +(\d+)%`. -/
def progressMatcher : matcher :=
  ⟨⟨.cat (byteCount 1) (.cat (.plus (.lit ' ')) (.cat (.group 3 (.plus .digit)) (.lit '%'))), 3⟩⟩

/-- `(\d+\.\d+.{2}/s)`. -/
def speedMatcher : matcher :=
  ⟨⟨.group 1 (.cat (.plus .digit) (.cat (.lit '.') (.cat (.plus .digit)
      (.cat .anyNotNL (.cat .anyNotNL (.cat (.lit '/') (.lit 's'))))))), 1⟩⟩

/-! ## `info.go`: the progress state and the stream scanners -/

/-- An `*exec.Cmd` as built by `exec.Command(name, arg...)`: `Path` is the
program name and `Args` the whole argument vector, the name first. -/
structure Cmd where
  Path : String
  Args : List String
  deriving DecidableEq, Repr

/-- `RsyncState`: the sizes learned from the statistics lines. -/
structure RsyncState where
  Total : Int
  Trans : Int
  deriving DecidableEq, Repr

/-- `State`: the progress report. -/
structure State where
  Send : Int
  Total : Int
  Speed : String
  Progress : ℚ
  deriving DecidableEq, Repr

/-- `Log`: the captured text of both streams. -/
structure Log where
  Stderr : String
  Stdout : String
  deriving DecidableEq, Repr

/-- `Info`. `Cmd` is a pointer in Go: `none` is `nil`. -/
structure Info where
  Cmd : Option Cmd
  RsyncState : RsyncState
  State : State
  Log : Log
  deriving DecidableEq, Repr

/-- `NewInfo`: the zero value of `Info`. -/
def NewInfo : Info := ⟨none, ⟨0, 0⟩, ⟨0, 0, "", 0⟩, ⟨"", ""⟩⟩

/-- First block of the loop body of `processStdout`: the total-size line. -/
def scanTotal (info : Info) (logStr : String) : Option Info :=
  if totalMatcher.Match logStr then
    (totalMatcher.Extract logStr 1).map (fun t =>
      { info with RsyncState := { info.RsyncState with Total := convertBytesNum t } })
  else some info

/-- Second block: the transferred-size line. -/
def scanTrans (info : Info) (logStr : String) : Option Info :=
  if transMatcher.Match logStr then
    (transMatcher.Extract logStr 1).map (fun t =>
      { info with RsyncState := { info.RsyncState with Trans := convertBytesNum t } })
  else some info

/-- Third block: the progress line, used only when a positive total is
known. -/
def scanProgress (info : Info) (logStr : String) : Option Info :=
  if progressMatcher.Match logStr ∧ info.RsyncState.Total > 0 then
    (progressMatcher.Extract logStr 1).map (fun p =>
      let total := info.RsyncState.Total
      let partialSize := wrapInt64 (info.RsyncState.Total - info.RsyncState.Trans)
      let sendSize := convertBytesNum p
      let send := wrapInt64 (sendSize + partialSize)
      { info with State := { info.State with
          Total := total, Send := send, Progress := (send : ℚ) / (total : ℚ) * 100 } })
  else some info

/-- Fourth block: the throughput label. -/
def scanSpeed (info : Info) (logStr : String) : Option Info :=
  if speedMatcher.Match logStr then
    (speedMatcher.Extract logStr 1).map (fun v =>
      { info with State := { info.State with Speed := v } })
  else some info

/-- The body of the read loop of `processStdout` for one chunk `logStr`
(the `n > 0` branch): the four blocks in source order, then the append to
the captured log. The result is `none` on a runtime fault. -/
def processStdoutChunk (info : Info) (logStr : String) : Option Info :=
  (scanTotal info logStr).bind fun i1 =>
  (scanTrans i1 logStr).bind fun i2 =>
  (scanProgress i2 logStr).bind fun i3 =>
  (scanSpeed i3 logStr).map fun i4 =>
  { i4 with Log := { i4.Log with Stdout := i4.Log.Stdout ++ logStr } }

/-- `processStdout` over the successive results of `stdout.Read`; the loop
ends with the read that reports an error (end of stream). A read of zero
bytes changes nothing. -/
def processStdout (info : Info) : List String → Option Info
  | [] => some info
  | chunk :: rest =>
    match (if chunk.length > 0 then processStdoutChunk info chunk else some info) with
    | none => none
    | some info1 => processStdout info1 rest

/-- `processStderr` over the successive results of `stderr.Read`. -/
def processStderr (info : Info) : List String → Info
  | [] => info
  | chunk :: rest =>
    processStderr (if chunk.length > 0 then
      { info with Log := { info.Log with Stderr := info.Log.Stderr ++ chunk } } else info) rest

/-- One loop body of a scanner goroutine on one read: of `processStdout`
(`out`) or of `processStderr` (`err`). -/
inductive ScanStep where
  | out (chunk : String)
  | err (chunk : String)
  deriving DecidableEq, Repr

/-- The effect of one scanner step on the shared `Info`. -/
def scanStep (info : Info) : ScanStep → Option Info
  | .out chunk => processStdout info [chunk]
  | .err chunk => some (processStderr info [chunk])

/-- Scanner steps landing on the shared `Info` one after the other. -/
def applyLate (info : Info) : List ScanStep → Option Info
  | [] => some info
  | st :: rest =>
    match scanStep info st with
    | none => none
    | some info1 => applyLate info1 rest

/-- What one subprocess run does to the caller, as a schedule: the errors of
the two pipe constructors, the error of `Cmd.Run` (`none` is Go's `nil`
error), and the scanner steps, listed by the moment at which they land on
the shared `Info`. `Info.Run` starts the two scanners with `go` and joins
neither of them, so a step can land after `Cmd.Run` has returned:

* `stdout`, `stderr`: the reads whose loop body is complete when `Cmd.Run`
  returns;
* `lateMid`: the steps that land after that and after the next write of the
  caller to `State`, but before its last one (in `Copy`: between
  `State.Send = State.Total` and `State.Progress = 100`);
* `lateEnd`: the steps that land after the last write of the caller.

A step that lands after `Cmd.Run` returned but before the next write of the
caller acts like a step of `stdout` or `stderr` and is listed there; so is a
step of a scanner of the first `Run` of `Copy` that lands while the second
`Run` is in progress (same loop body, same `Info`). -/
structure ProcRun where
  stdoutPipe : Option String
  stderrPipe : Option String
  stdout : List String
  stderr : List String
  runErr : Option String
  lateMid : List ScanStep
  lateEnd : List ScanStep
  deriving Repr

/-- Result of `Info.Run`: the state when `Run` returns, the returned error
(`result = none` is a runtime fault), and the steps the scanners it started
have still to make. -/
structure RunResult where
  info : Info
  result : Option (Option String)
  lateMid : List ScanStep
  lateEnd : List ScanStep
  deriving Repr

/-- `Info.Run`. The operating system and the scheduler are the function
`sys` from a command to its `ProcRun`. The steps of `stdout` and of `stderr`
land before `Cmd.Run` returns; the two scanners write disjoint fields, so
the order between them does not matter. The scanners are not joined: the
steps of `lateMid` and `lateEnd` are handed back to the caller as pending.
A `nil` command faults on `info.Cmd.StdoutPipe()`, and a failing pipe
constructor returns before a scanner is started. -/
def Info.Run (sys : GoRsync.Cmd → ProcRun) (info : Info) : RunResult :=
  match info.Cmd with
  | none => ⟨info, none, [], []⟩
  | some cmd =>
    match (sys cmd).stdoutPipe with
    | some err => ⟨info, some (some err), [], []⟩
    | none =>
      match (sys cmd).stderrPipe with
      | some err => ⟨info, some (some err), [], []⟩
      | none =>
        match processStdout info (sys cmd).stdout with
        | none => ⟨info, none, [], []⟩
        | some info1 =>
          ⟨processStderr info1 (sys cmd).stderr, some (sys cmd).runErr,
            (sys cmd).lateMid, (sys cmd).lateEnd⟩

/-! ## `rsync.go`: options, argument list and the two-phase copy -/

/-- `Options`. -/
structure Options where
  Archive : Bool
  Delete : Bool
  Compress : Bool
  Verbose : Bool
  Progress : Bool
  Partial : Bool
  Stats : Bool
  Exclude : List String
  RemoteShell : String
  RemoteHost : String
  Additional : List String
  deriving DecidableEq, Repr

/-- `DefaultOptions`. -/
def DefaultOptions : Options :=
  { Archive := true, Delete := false, Compress := true, Verbose := false, Progress := true,
    Partial := true, Stats := false, Exclude := [], RemoteShell := "", RemoteHost := "",
    Additional := [] }

/-- `Options.GetArgs`: the argument list, or the validation error. -/
def Options.GetArgs (c : Options) (dst : String) (src : List String) :
    Except String (List String) :=
  if src.length = 0 then .error "no source given"
  else if dst = "" then .error "no destination given"
  else
    let cmd := ["rsync"]
    let cmd := if c.Archive then cmd ++ ["--archive"] else cmd
    let cmd := if c.Delete then cmd ++ ["--delete"] else cmd
    let cmd := if c.Compress then cmd ++ ["--compress"] else cmd
    let cmd := if c.Verbose then cmd ++ ["--verbose"] else cmd
    let cmd := if c.Progress then (cmd ++ ["--info=progress2"]) ++ ["--no-i-r"] else cmd
    let cmd := if c.Stats then (cmd ++ ["--dry-run"]) ++ ["--stats"] else cmd
    let cmd := if c.Partial then cmd ++ ["--partial"] else cmd
    let cmd := c.Exclude.foldl (fun acc x => acc ++ ["--exclude", x]) cmd
    let remote : Except String (List String × String) :=
      if c.RemoteShell ≠ "" then
        if c.RemoteHost = "" then .error "no remote host given"
        else .ok (cmd ++ ["--rsh", c.RemoteShell], c.RemoteHost ++ ":" ++ dst)
      else .ok (cmd, dst)
    match remote with
    | .error e => .error e
    | .ok (cmd, dst) =>
      let cmd := c.Additional.foldl (fun acc o => acc ++ [o]) cmd
      let cmd := cmd ++ src
      .ok (cmd ++ [dst])

/-- `Rsync`. `Options` is a pointer in Go; `Copy` writes through it, so the
options are part of the state. -/
structure Rsync where
  Options : Options
  Info : Info
  deriving DecidableEq, Repr

/-- `Rsync.command`: outer `none` is a runtime fault (`args[0]` on an empty
list), inner `none` is the `nil` command returned when `GetArgs` fails. -/
def Rsync.command (r : Rsync) (dst : String) (src : List String) : Option (Option Cmd) :=
  match r.Options.GetArgs dst src with
  | .error _ => some none
  | .ok args =>
    match args with
    | [] => none
    | a0 :: rest => some (some ⟨a0, a0 :: rest⟩)

/-- Result of `Rsync.Copy`: the receiver when `Copy` returns, the non-nil
commands that `command` built, in order, the returned error (`result = none`
is a runtime fault), and the steps that the scanners, which nothing joins,
make after `Copy` has returned. -/
structure CopyResult where
  rsync : Rsync
  built : List Cmd
  result : Option (Option String)
  pending : List ScanStep
  deriving Repr

/-- `Rsync.Copy`. `sys1` and `sys2` give the behaviour of the subprocess of
the first and of the second `Run`, and the schedule of their scanners. When
both runs return `nil`, the steps of `lateMid` land between the two closing
writes and the steps of `lateEnd` after `Copy` has returned; when `Copy`
returns early, every pending step lands after the return. -/
def Rsync.Copy (sys1 sys2 : Cmd → ProcRun) (r : Rsync) (dst : String) (src : List String) :
    CopyResult :=
  let r : Rsync := { r with Info := NewInfo }
  -- get stats
  let r : Rsync := { r with Options := { r.Options with Stats := true } }
  match r.command dst src with
  | none => ⟨r, [], none, []⟩
  | some cmd1 =>
    let run1 := Info.Run sys1 { r.Info with Cmd := cmd1 }
    let r : Rsync := { r with Info := run1.info }
    let pending1 := run1.lateMid ++ run1.lateEnd
    match run1.result with
    | none => ⟨r, cmd1.toList, none, pending1⟩
    | some (some err) => ⟨r, cmd1.toList, some (some err), pending1⟩
    | some none =>
      -- copy file
      let r : Rsync := { r with Options := { r.Options with Stats := false } }
      match r.command dst src with
      | none => ⟨r, cmd1.toList, none, pending1⟩
      | some cmd2 =>
        let run2 := Info.Run sys2 { r.Info with Cmd := cmd2 }
        let r : Rsync := { r with Info := run2.info }
        match run2.result with
        | none => ⟨r, cmd1.toList ++ cmd2.toList, none, pending1 ++ (run2.lateMid ++ run2.lateEnd)⟩
        | some (some err) =>
          ⟨r, cmd1.toList ++ cmd2.toList, some (some err),
            pending1 ++ (run2.lateMid ++ run2.lateEnd)⟩
        | some none =>
          -- sync send and total num
          let r : Rsync := { r with Info := { r.Info with
            State := { r.Info.State with Send := r.Info.State.Total } } }
          match applyLate r.Info (run1.lateMid ++ run2.lateMid) with
          | none => ⟨r, cmd1.toList ++ cmd2.toList, none, run1.lateEnd ++ run2.lateEnd⟩
          | some info3 =>
            let r : Rsync := { r with Info := { info3 with
              State := { info3.State with Progress := 100 } } }
            ⟨r, cmd1.toList ++ cmd2.toList, some none, run1.lateEnd ++ run2.lateEnd⟩

/-- The state once the scanners that `Copy` left running have made their
last step; `none` is a runtime fault in one of them. -/
def CopyResult.settled (res : CopyResult) : Option Info :=
  applyLate res.rsync.Info res.pending

/-! ## Statement vocabulary -/

/-- The flag/value pairs of a list of exclusion patterns, in order. -/
def excludeBlock (xs : List String) : List String :=
  match xs with
  | [] => []
  | x :: rest => "--exclude" :: x :: excludeBlock rest

/-- The flags that `GetArgs` derives from the boolean options. -/
def booleanFlags : List String :=
  ["--archive", "--delete", "--compress", "--verbose", "--info=progress2", "--no-i-r",
    "--dry-run", "--stats", "--partial"]

/-- The flags `GetArgs` emits for the boolean options of `c`, in order. -/
def flagsOf (c : Options) : List String :=
  (if c.Archive then ["--archive"] else []) ++ (if c.Delete then ["--delete"] else []) ++
  (if c.Compress then ["--compress"] else []) ++ (if c.Verbose then ["--verbose"] else []) ++
  (if c.Progress then ["--info=progress2", "--no-i-r"] else []) ++
  (if c.Stats then ["--dry-run", "--stats"] else []) ++
  (if c.Partial then ["--partial"] else [])

/-- The remote-shell pair of `c`: empty when no remote shell is set. -/
def rshPair (c : Options) : List String :=
  if c.RemoteShell ≠ "" then ["--rsh", c.RemoteShell] else []

/-- The destination argument of `c` for `dst`. -/
def dstArg (c : Options) (dst : String) : String :=
  if c.RemoteShell ≠ "" then c.RemoteHost ++ ":" ++ dst else dst

/-- A decimal digit character, `0` to `9`. -/
def isDigitChar (c : Char) : Bool := decide (48 ≤ c.toNat ∧ c.toNat ≤ 57)

/-- The number a string of decimal digits denotes. -/
def decimalValue (ds : List Char) : Nat :=
  ds.foldl (fun n c => n * 10 + (c.toNat - 48)) 0

/-- Digit groups joined by commas: `["4", "662"]` gives `4,662`. -/
def joinGroups : List (List Char) → List Char
  | [] => []
  | [g] => g
  | g :: rest => g ++ ',' :: joinGroups rest

/-- An optionally signed base-10 integer: an optional `+` or `-`, then one or
more decimal digits. -/
def isSignedDecimal (s : List Char) : Bool :=
  match s with
  | [] => false
  | c :: rest =>
    if c = '+' ∨ c = '-' then !rest.isEmpty && rest.all isDigitChar
    else s.all isDigitChar

/-- The byte count that the first progress line of a chunk shows: the digits
of capture group 1 of `progressMatcher`, commas left out, read in base 10. -/
def progressCount (logStr : String) : Nat :=
  match progressMatcher.Extract logStr 1 with
  | some cap => decimalValue (cap.toList.filter (fun c => c ≠ ','))
  | none => 0

/-- A subprocess run in which both pipes open and `Cmd.Run` returns `nil`. -/
def ProcRun.succeeds (p : ProcRun) : Prop :=
  p.stdoutPipe = none ∧ p.stderrPipe = none ∧ p.runErr = none

instance (p : ProcRun) : Decidable p.succeeds := by
  unfold ProcRun.succeeds
  infer_instance

/-- A discovery run that prints the two statistics lines and ends with
`runErr`. -/
def statsRun (runErr : Option String) : ProcRun :=
  ⟨none, none,
    ["Total file size: 4,662,518,418 bytes\nTotal transferred file size: 1,555,052,808 bytes\n"],
    [], runErr, [], []⟩

/-- A transfer run that prints one progress line and ends with `runErr`. -/
def progressRun (runErr : Option String) : ProcRun :=
  ⟨none, none, ["120,324,096  11%   57.38MB/s    0:00:15"], ["rsync: connection reset"], runErr,
    [], []⟩

/-- A run that prints nothing and succeeds. -/
def quietRun : ProcRun := ⟨none, none, [], [], none, [], []⟩

/-- A successful transfer run that prints two progress lines; its scanner is
still in the loop body for the second one when `Cmd.Run` returns, and the
step lands after the last write of `Copy`. -/
def lateRun : ProcRun :=
  ⟨none, none, ["32,768   0%    0.00kB/s    0:00:00"], [], none,
    [], [.out "120,324,096  11%   57.38MB/s    0:00:15"]⟩

/-- The same run; the step lands between the two closing writes of `Copy`. -/
def midRun : ProcRun :=
  ⟨none, none, ["32,768   0%    0.00kB/s    0:00:00"], [], none,
    [.out "120,324,096  11%   57.38MB/s    0:00:15"], []⟩

/-- A successful transfer run that ends with a step on a chunk without a
progress line and a step of the stderr scanner, both after `Cmd.Run`
returned. -/
def lateLogRun : ProcRun :=
  ⟨none, none, ["120,324,096  11%   57.38MB/s    0:00:15"], [], none,
    [.out "sent 120 bytes  received 35 bytes\n"], [.err "rsync: warning\n"]⟩

/-- Whether a scanner step is a step of `processStdout` on a chunk with a
progress line: the only steps that can write `State.Total`, `State.Send`
and `State.Progress`. -/
def ScanStep.reportsProgress : ScanStep → Bool
  | .out chunk => progressMatcher.Match chunk
  | .err _ => false

/-- No step that lands after `Cmd.Run` returned carries a progress line. -/
def ProcRun.quietAfter (p : ProcRun) : Prop :=
  ∀ st ∈ p.lateMid ++ p.lateEnd, st.reportsProgress = false

instance (p : ProcRun) : Decidable p.quietAfter := by
  unfold ProcRun.quietAfter
  infer_instance

/-- `Consumes r t c c1`: the expression `r` matches exactly the text `t`,
turning the capture slots `c` into `c1`. -/
inductive Consumes : Regex → List Char → Caps → Caps → Prop
  | lit (ch : Char) (c : Caps) : Consumes (.lit ch) [ch] c c
  | digit (x : Char) (c : Caps) (h : 48 ≤ x.toNat ∧ x.toNat ≤ 57) : Consumes .digit [x] c c
  | anyNotNL (x : Char) (c : Caps) (h : x ≠ '\n') : Consumes .anyNotNL [x] c c
  | cat {a b : Regex} {t1 t2 : List Char} {c c1 c2 : Caps} :
      Consumes a t1 c c1 → Consumes b t2 c1 c2 → Consumes (.cat a b) (t1 ++ t2) c c2
  | starNil (r : Regex) (c : Caps) : Consumes (.star r) [] c c
  | starCons {r : Regex} {t1 t2 : List Char} {c c1 c2 : Caps} :
      Consumes r t1 c c1 → Consumes (.star r) t2 c1 c2 → Consumes (.star r) (t1 ++ t2) c c2
  | plus {r : Regex} {t1 t2 : List Char} {c c1 c2 : Caps} :
      Consumes r t1 c c1 → Consumes (.star r) t2 c1 c2 → Consumes (.plus r) (t1 ++ t2) c c2
  | group {r : Regex} {t : List Char} {c c1 : Caps} (i : Nat) :
      Consumes r t c c1 → Consumes (.group i r) t c (c1.set i (some t))

/-- Whether capture group `j` occurs in an expression. -/
def Regex.hasGroup (j : Nat) : Regex → Bool
  | .lit _ => false
  | .digit => false
  | .anyNotNL => false
  | .cat a b => a.hasGroup j || b.hasGroup j
  | .star r => r.hasGroup j
  | .plus r => r.hasGroup j
  | .group i r => decide (i = j) || r.hasGroup j

/-- The text after the first digit group: each further group preceded by a
comma. -/
def commaTail : List (List Char) → List Char
  | [] => []
  | g :: rest => ',' :: g ++ commaTail rest

/-- What a successful run of a matcher step means: some prefix `t` of the
input was consumed by `r` and the continuation succeeded on the rest. -/
def StepSound (r : Regex)
    (step : List Char → Caps → (List Char → Caps → Option Caps) → Option Caps) : Prop :=
  ∀ s c k res, step s c k = some res →
    ∃ t s1 c1, s = t ++ s1 ∧ Consumes r t c c1 ∧ k s1 c1 = some res

/-- Options with a remote shell, used to instantiate the remote claims. -/
def remoteOptions : Options :=
  { Archive := true, Delete := false, Compress := true, Verbose := false, Progress := true,
    Partial := true, Stats := false, Exclude := ["*.tmp", ".git"], RemoteShell := "ssh -p 22",
    RemoteHost := "backup", Additional := ["--numeric-ids"] }

/-- The discovery command of the default options for `/a/b` to `/c`. -/
def defaultDiscoveryCmd : Cmd :=
  ⟨"rsync", ["rsync", "--archive", "--compress", "--info=progress2", "--no-i-r", "--dry-run",
    "--stats", "--partial", "/a/b", "/c"]⟩

/-- The transfer command of the default options for `/a/b` to `/c`. -/
def defaultTransferCmd : Cmd :=
  ⟨"rsync", ["rsync", "--archive", "--compress", "--info=progress2", "--no-i-r", "--partial",
    "/a/b", "/c"]⟩

/-- The report invariant of the scanners: while no total has been copied
into `State`, no percentage has been computed. -/
def ProgressUnknown (info : Info) : Prop :=
  info.State.Total = 0 → info.State.Progress = 0

/-! ## `ssh.go` and `NewRsync` -/

/-- `SSH`. `Port` is a Go `int`. -/
structure SSH where
  ConfigFile : String
  Host : String
  User : String
  Port : Int
  Password : String
  KeyFile : String
  Options : List String
  deriving DecidableEq, Repr

/-- `strings.Split(s, sep)` for a separator of one character: the pieces of
`s` between the occurrences of `sep`, at least one piece. -/
def stringsSplit (sep : Char) : List Char → List (List Char)
  | [] => [[]]
  | c :: cs =>
    if c = sep then [] :: stringsSplit sep cs
    else
      match stringsSplit sep cs with
      | [] => [[c]]
      | piece :: rest => (c :: piece) :: rest

/-- `strconv.Atoi` on a 64-bit platform: the value and errors of
`ParseInt(s, 10, 64)`. -/
def atoi (s : List Char) : Except NumError Int := parseInt s

/-- `strconv.Itoa`. -/
def itoa (n : Int) : String := n.repr

/-- `strings.Join(elems, sep)`. -/
def stringsJoin (sep : String) : List String → String
  | [] => ""
  | [a] => a
  | a :: rest => a ++ sep ++ stringsJoin sep rest

/-- `NewSSH`: the host string has the format `[user@]hostname[:port]`. -/
def NewSSH (host : String) : Except String SSH :=
  let a := stringsSplit '@' host.toList
  let userHost : List Char × List Char :=
    match a with
    | a0 :: a1 :: _ => (a0, a1)
    | _ => ([], host.toList)
  let user := userHost.1
  let host1 := userHost.2
  let b := stringsSplit ':' host1
  match b with
  | b0 :: b1 :: _ =>
    match atoi b1 with
    | .error _ => .error "invalid SSH port"
    | .ok port =>
      .ok { ConfigFile := "", Host := String.mk b0, User := String.mk user, Port := port,
            Password := "", KeyFile := "", Options := [] }
  | _ =>
    .ok { ConfigFile := "", Host := String.mk host1, User := String.mk user, Port := 0,
          Password := "", KeyFile := "", Options := [] }

/-- `SSH.Command`. -/
def SSH.Command (s : SSH) (args : List String) : List String :=
  let cmd := ["ssh"]
  let cmd := if s.Password ≠ "" then (["sshpass"] ++ ["-p", s.Password]) ++ ["ssh"] else cmd
  let cmd := cmd ++ ["-T"]
  let cmd := if s.ConfigFile ≠ "" then cmd ++ ["-F", s.ConfigFile] else cmd
  let cmd := if s.User ≠ "" then cmd ++ ["-l", s.User] else cmd
  let cmd := if s.Port ≠ 0 then cmd ++ ["-p", itoa s.Port] else cmd
  let cmd := if s.KeyFile ≠ "" then cmd ++ ["-i", s.KeyFile] else cmd
  let cmd := s.Options.foldl (fun acc o => acc ++ ["-o", o]) cmd
  let cmd := if s.Host ≠ "" then cmd ++ [s.Host] else cmd
  if args.length > 0 then cmd ++ args else cmd

/-- `SSH.Shell`: every element of the command but the last, quoted and
joined by blanks. The slice `cmd[:len(cmd)-1]` is `dropLast`; the command
is never empty. -/
def SSH.Shell (s : SSH) : String :=
  let cmd := s.Command []
  let quoted := cmd.dropLast.foldl (fun acc i => acc ++ ["'" ++ i ++ "'"]) []
  stringsJoin " " quoted

/-- `NewRsync`: `opt = none` is the `nil` pointer; the returned error is
always `nil`. -/
def NewRsync (opt : Option Options) (ssh : SSH) : Rsync × Option String :=
  let opt : Options :=
    match opt with
    | none => DefaultOptions
    | some o => o
  let opt : Options := { opt with RemoteHost := ssh.Host }
  let opt : Options := { opt with RemoteShell := ssh.Shell }
  (⟨opt, NewInfo⟩, none)

/-- A sample `SSH` value with a password, a user and a port. -/
def sampleSSH : SSH :=
  { ConfigFile := "", Host := "backup", User := "root", Port := 2222, Password := "secret",
    KeyFile := "", Options := ["StrictHostKeyChecking=no"] }

/-- The zero `SSH` value. -/
def emptySSH : SSH :=
  { ConfigFile := "", Host := "", User := "", Port := 0, Password := "", KeyFile := "",
    Options := [] }

/-- The shape of the two size announcements: a label, the byte count as
group 1, and the word `bytes`. -/
def announcement (label : List Char) : matcher :=
  ⟨⟨litThen label (.cat (byteCount 1) (litThen " byte".toList (.lit 's'))), 2⟩⟩

/-- Both discovery totals are known to be non-negative. -/
def TotalsNonneg (info : Info) : Prop :=
  0 ≤ info.RsyncState.Total ∧ 0 ≤ info.RsyncState.Trans

/-- The capture slots after the comma groups `gs` have been matched: slot 2
is overwritten by each group in turn. -/
def capsAfter (gs : List (List Char)) (c0 : Caps) : Caps :=
  gs.foldl (fun acc g => acc.set 2 (some (',' :: g))) c0

/-- `NoAnnouncementBefore label chunk n`: no announcement, a text
`label ++ N ++ " bytes"` with `N` digit groups joined by commas, starts in
`chunk` at a position before `n`. -/
def NoAnnouncementBefore (label chunk : List Char) (n : Nat) : Prop :=
  ∀ (p q : List Char) (gs : List (List Char)), gs ≠ [] →
    (∀ g ∈ gs, g ≠ [] ∧ ∀ x ∈ g, isDigitChar x = true) →
    chunk = p ++ (label ++ (joinGroups gs ++ (" bytes".toList ++ q))) → n ≤ p.length

/-! ## Auxiliary lemmas -/

theorem foldl_exclude (xs : List String) (cmd : List String) :
    xs.foldl (fun acc x => acc ++ ["--exclude", x]) cmd = cmd ++ excludeBlock xs := by
  induction xs generalizing cmd with
  | nil => simp [excludeBlock]
  | cons x rest ih => simp [excludeBlock, ih]

theorem foldl_additional (xs : List String) (cmd : List String) :
    xs.foldl (fun acc o => acc ++ [o]) cmd = cmd ++ xs := by
  induction xs generalizing cmd with
  | nil => simp
  | cons x rest ih => simp [ih]

/-- On valid input `GetArgs` succeeds with the list `rsync`, boolean flags,
exclusion block, remote-shell pair, additional options, sources, destination. -/
theorem GetArgs_valid (c : Options) (dst : String) (src : List String)
    (hsrc : src ≠ []) (hdst : dst ≠ "") (hremote : c.RemoteShell ≠ "" → c.RemoteHost ≠ "") :
    c.GetArgs dst src = .ok ("rsync" :: (flagsOf c ++ excludeBlock c.Exclude ++ rshPair c ++
      c.Additional ++ src ++ [dstArg c dst])) := by
  have hlen : src.length ≠ 0 := by simpa using hsrc
  unfold Options.GetArgs
  simp only [hlen, hdst, if_false, foldl_exclude, foldl_additional]
  by_cases hs : c.RemoteShell = ""
  · simp [hs, rshPair, dstArg, flagsOf]
    cases c.Archive <;> cases c.Delete <;> cases c.Compress <;> cases c.Verbose <;>
      cases c.Progress <;> cases c.Stats <;> cases c.Partial <;> simp
  · have hh := hremote hs
    simp [hs, hh, rshPair, dstArg, flagsOf]
    cases c.Archive <;> cases c.Delete <;> cases c.Compress <;> cases c.Verbose <;>
      cases c.Progress <;> cases c.Stats <;> cases c.Partial <;> simp

/-- `GetArgs` fails exactly on the three invalid shapes of input. -/
theorem GetArgs_invalid (c : Options) (dst : String) (src : List String)
    (h : src = [] ∨ dst = "" ∨ (c.RemoteShell ≠ "" ∧ c.RemoteHost = "")) :
    ∃ e, c.GetArgs dst src = .error e := by
  unfold Options.GetArgs
  by_cases hsrc : src.length = 0
  · exact ⟨"no source given", by simp [hsrc]⟩
  · by_cases hdst : dst = ""
    · exact ⟨"no destination given", by simp [hsrc, hdst]⟩
    · have hsrc2 : src ≠ [] := by simpa using hsrc
      rcases h with h | h | ⟨h1, h2⟩
      · exact absurd h hsrc2
      · exact absurd h hdst
      · exact ⟨"no remote host given", by simp [hsrc, hdst, h1, h2]⟩

theorem digitVal_of_digit (c : Char) (h : isDigitChar c = true) :
    digitVal c = some (c.toNat - 48) := by
  simp only [isDigitChar, decide_eq_true_eq] at h
  simp [digitVal, h]

theorem digit_of_digitVal (c : Char) (d : Nat) (h : digitVal c = some d) (hd : d < 10) :
    isDigitChar c = true := by
  simp only [isDigitChar, decide_eq_true_eq]
  unfold digitVal at h
  split at h
  · assumption
  · split at h
    · simp at h; omega
    · split at h
      · simp at h; omega
      · simp at h

theorem foldl_digits_ge (ds : List Char) (n : Nat) :
    n ≤ ds.foldl (fun n c => n * 10 + (c.toNat - 48)) n := by
  induction ds generalizing n with
  | nil => simp
  | cons c cs ih =>
    simp only [List.foldl_cons]
    have := ih (n * 10 + (c.toNat - 48))
    omega

/-- On a string of digits the loop of `ParseUint` returns the denoted number,
or a range error when that number exceeds `maxUint64`. -/
theorem parseUintLoop_digits (ds : List Char) (n : Nat)
    (hd : ∀ c ∈ ds, isDigitChar c = true) :
    parseUintLoop ds n =
      if ds.foldl (fun n c => n * 10 + (c.toNat - 48)) n ≤ maxUint64 ∨ ds = [] then
        .ok (ds.foldl (fun n c => n * 10 + (c.toNat - 48)) n)
      else .error .rangeErr := by
  induction ds generalizing n with
  | nil => simp [parseUintLoop]
  | cons c cs ih =>
    have hc : isDigitChar c = true := hd c (List.mem_cons_self _ _)
    have hcs : ∀ x ∈ cs, isDigitChar x = true := fun x hx => hd x (List.mem_cons_of_mem _ hx)
    have hc2 : 48 ≤ c.toNat ∧ c.toNat ≤ 57 := by
      simpa only [isDigitChar, decide_eq_true_eq] using hc
    have hge := foldl_digits_ge cs (n * 10 + (c.toNat - 48))
    simp only [parseUintLoop, digitVal_of_digit c hc, List.foldl_cons]
    have hlt : ¬ (c.toNat - 48 ≥ 10) := by omega
    simp only [hlt, if_false, maxUint64] at hge ⊢
    by_cases hcut : n ≥ 18446744073709551615 / 10 + 1
    · have hbig : ¬ (List.foldl (fun n c => n * 10 + (c.toNat - 48))
          (n * 10 + (c.toNat - 48)) cs ≤ 18446744073709551615) := by omega
      simp [hcut, hbig]
    · simp only [hcut, if_false]
      by_cases hfit : n * 10 + (c.toNat - 48) ≤ 18446744073709551615
      · have hmod : (n * 10 + (c.toNat - 48)) % 18446744073709551616 =
            n * 10 + (c.toNat - 48) := Nat.mod_eq_of_lt (by omega)
        have hno : ¬ (n * 10 + (c.toNat - 48) < n * 10 ∨
            n * 10 + (c.toNat - 48) > 18446744073709551615) := by omega
        simp only [hmod, hno, if_false]
        rw [ih _ hcs]
        simp only [maxUint64]
        by_cases hcsnil : cs = []
        · subst hcsnil
          simp [hfit]
        · simp [hcsnil]
      · have hmod : (n * 10 + (c.toNat - 48)) % 18446744073709551616 < n * 10 := by omega
        have hbig : ¬ (List.foldl (fun n c => n * 10 + (c.toNat - 48))
            (n * 10 + (c.toNat - 48)) cs ≤ 18446744073709551615) := by omega
        simp [hmod, hbig]

/-- The loop of `ParseUint` succeeds on digit strings only. -/
theorem parseUintLoop_ok_digits (ds : List Char) (n v : Nat)
    (h : parseUintLoop ds n = .ok v) : ∀ c ∈ ds, isDigitChar c = true := by
  induction ds generalizing n with
  | nil => simp
  | cons c cs ih =>
    unfold parseUintLoop at h
    cases hdv : digitVal c with
    | none => simp [hdv] at h
    | some d =>
      simp only [hdv] at h
      by_cases hd : d ≥ 10
      · simp [hd] at h
      · simp only [hd, if_false] at h
        split at h
        · cases h
        · split at h
          · cases h
          · intro x hx
            rcases List.mem_cons.mp hx with rfl | hx
            · exact digit_of_digitVal _ d hdv (by omega)
            · exact ih _ h x hx

theorem digit_ne_sign (c : Char) (h : isDigitChar c = true) : c ≠ '+' ∧ c ≠ '-' := by
  simp only [isDigitChar, decide_eq_true_eq] at h
  constructor
  · rintro rfl
    simp at h
  · rintro rfl
    simp at h

theorem digit_ne_comma (c : Char) (h : isDigitChar c = true) : c ≠ ',' := by
  simp only [isDigitChar, decide_eq_true_eq] at h
  rintro rfl
  simp at h

/-- `ParseInt` on a non-empty string of digits: the denoted number when it
fits `int64`, a range error otherwise. -/
theorem parseInt_digits (ds : List Char) (hne : ds ≠ [])
    (hd : ∀ c ∈ ds, isDigitChar c = true) :
    parseInt ds =
      if decimalValue ds ≤ 9223372036854775807 then .ok (decimalValue ds : Int)
      else .error .rangeErr := by
  cases ds with
  | nil => exact absurd rfl hne
  | cons c rest =>
    have hc := hd c (List.mem_cons_self _ _)
    obtain ⟨hp, hm⟩ := digit_ne_sign c hc
    have hloop := parseUintLoop_digits (c :: rest) 0 hd
    simp only [parseInt, parseUint, hp, hm, or_self, if_false, decide_False, hloop,
      decimalValue, maxUint64]
    generalize List.foldl (fun n c => n * 10 + (c.toNat - 48)) 0 (c :: rest) = V
    by_cases h64 : V ≤ 18446744073709551615
    · by_cases h63 : V ≤ 9223372036854775807
      · have h3 : ¬ (V ≥ 9223372036854775808) := by omega
        simp [h64, h63, h3]
      · have h3 : V ≥ 9223372036854775808 := by omega
        simp [h64, h63, h3]
    · have h63 : ¬ (V ≤ 9223372036854775807) := by omega
      simp [h64, h63]

/-- Deleting the commas of joined digit groups leaves the digits. -/
theorem removeCommas_joinGroups (groups : List (List Char))
    (hd : ∀ g ∈ groups, ∀ c ∈ g, isDigitChar c = true) :
    removeCommas (joinGroups groups) = groups.flatten := by
  have hkeep : ∀ g : List Char, (∀ c ∈ g, isDigitChar c = true) →
      g.filter (fun c => c ≠ ',') = g := by
    intro g hg
    apply List.filter_eq_self.mpr
    intro a ha
    simpa using digit_ne_comma a (hg a ha)
  induction groups with
  | nil => simp [joinGroups, removeCommas]
  | cons g rest ih =>
    have hg := hd g (List.mem_cons_self _ _)
    have hrest : ∀ g ∈ rest, ∀ c ∈ g, isDigitChar c = true :=
      fun g1 h1 => hd g1 (List.mem_cons_of_mem _ h1)
    cases rest with
    | nil => simpa [joinGroups, removeCommas] using hkeep g hg
    | cons g2 rest2 =>
      have ih2 := ih hrest
      simp only [removeCommas] at ih2
      simp only [joinGroups, removeCommas, List.filter_append, hkeep g hg, List.flatten_cons]
      rw [List.filter_cons]
      simp only [ne_eq, not_true_eq_false, decide_False, Bool.false_eq_true, if_false]
      rw [ih2]
      simp

/-- `ParseInt` succeeds on optionally signed digit strings only. -/
theorem parseInt_ok_signed (s : List Char) (v : Int) (h : parseInt s = .ok v) :
    isSignedDecimal s = true := by
  cases s with
  | nil => simp [parseInt] at h
  | cons c rest =>
    simp only [parseInt] at h
    by_cases hsign : c = '+' ∨ c = '-'
    · simp only [hsign, if_true] at h
      cases hrest : rest with
      | nil => simp [hrest, parseUint] at h
      | cons d ds =>
        rw [hrest] at h
        cases hu : parseUint (d :: ds) with
        | error e => cases e <;> simp [hu] at h
        | ok un =>
          have hdig := parseUintLoop_ok_digits (d :: ds) 0 un (by simpa [parseUint] using hu)
          simp only [isSignedDecimal, hsign, if_true, List.isEmpty_cons, Bool.not_false,
            Bool.true_and, List.all_eq_true]
          exact hdig
    · simp only [hsign, if_false] at h
      cases hu : parseUint (c :: rest) with
      | error e => cases e <;> simp [hu] at h
      | ok un =>
        have hdig := parseUintLoop_ok_digits (c :: rest) 0 un (by simpa [parseUint] using hu)
        simp only [isSignedDecimal, hsign, if_false, List.all_eq_true]
        exact hdig

/-- `ParseInt` after comma removal on digit groups joined by commas. -/
theorem parseInt_joinGroups (groups : List (List Char)) (hne : groups ≠ [])
    (hd : ∀ g ∈ groups, g ≠ [] ∧ ∀ c ∈ g, isDigitChar c = true) :
    parseInt (removeCommas (joinGroups groups)) =
      if decimalValue groups.flatten ≤ 9223372036854775807 then
        .ok (decimalValue groups.flatten : Int)
      else .error .rangeErr := by
  have hflat : groups.flatten ≠ [] := by
    cases groups with
    | nil => exact absurd rfl hne
    | cons g rest =>
      have := (hd g (List.mem_cons_self _ _)).1
      simp [this]
  have hdig : ∀ c ∈ groups.flatten, isDigitChar c = true := by
    intro c hc
    obtain ⟨g, hg, hcg⟩ := List.mem_flatten.mp hc
    exact (hd g hg).2 c hcg
  rw [removeCommas_joinGroups groups (fun g hg => (hd g hg).2), parseInt_digits _ hflat hdig]

/-- A successful `GetArgs` had valid input. -/
theorem GetArgs_ok_valid (c : Options) (dst : String) (src : List String) (args : List String)
    (h : c.GetArgs dst src = .ok args) :
    src ≠ [] ∧ dst ≠ "" ∧ (c.RemoteShell ≠ "" → c.RemoteHost ≠ "") := by
  refine ⟨?_, ?_, ?_⟩
  · intro hs
    obtain ⟨e, he⟩ := GetArgs_invalid c dst src (Or.inl hs)
    rw [he] at h
    cases h
  · intro hd
    obtain ⟨e, he⟩ := GetArgs_invalid c dst src (Or.inr (Or.inl hd))
    rw [he] at h
    cases h
  · intro hs hh
    obtain ⟨e, he⟩ := GetArgs_invalid c dst src (Or.inr (Or.inr ⟨hs, hh⟩))
    rw [he] at h
    cases h

/-- The shape of every successful `GetArgs` result. -/
theorem GetArgs_ok_shape (c : Options) (dst : String) (src : List String) (args : List String)
    (h : c.GetArgs dst src = .ok args) :
    args = "rsync" :: (flagsOf c ++ excludeBlock c.Exclude ++ rshPair c ++
      c.Additional ++ src ++ [dstArg c dst]) := by
  obtain ⟨h1, h2, h3⟩ := GetArgs_ok_valid c dst src args h
  rw [GetArgs_valid c dst src h1 h2 h3] at h
  exact (Except.ok.inj h).symm

theorem mem_of_mem_ite {b : Bool} {f : String} {L M : List String}
    (h : f ∈ (if b = true then L else [])) (hL : ∀ x ∈ L, x ∈ M) : f ∈ M := by
  split at h
  · exact hL f h
  · cases h

theorem flagsOf_subset (c : Options) : ∀ f ∈ flagsOf c, f ∈ booleanFlags := by
  intro f hf
  simp only [flagsOf, List.mem_append] at hf
  rcases hf with ((((((h | h) | h) | h) | h) | h) | h) <;>
    exact mem_of_mem_ite h (by decide)

theorem getLast?_append_singleton (xs : List String) (d : String) :
    (xs ++ [d]).getLast? = some d := by
  simp

/-! ### Soundness of the backtracking matcher -/

theorem starLoop_sound (r : Regex)
    (step : List Char → Caps → (List Char → Caps → Option Caps) → Option Caps)
    (hstep : StepSound r step) (fuel : Nat) : StepSound (.star r) (starLoop step fuel) := by
  induction fuel with
  | zero =>
    intro s c k res h
    exact ⟨[], s, c, rfl, Consumes.starNil r c, h⟩
  | succ n ih =>
    intro s c k res h
    unfold starLoop at h
    split at h
    · rename_i r1 hr1
      cases h
      obtain ⟨t1, s1, c1, hs, hcons, hk⟩ := hstep _ _ _ _ hr1
      by_cases hlen : s1.length < s.length
      · simp only [hlen, if_true] at hk
        obtain ⟨t2, s2, c2, hs2, hcons2, hk2⟩ := ih _ _ _ _ hk
        refine ⟨t1 ++ t2, s2, c2, ?_, Consumes.starCons hcons hcons2, hk2⟩
        rw [hs, hs2, List.append_assoc]
      · simp [hlen] at hk
    · exact ⟨[], s, c, rfl, Consumes.starNil r c, h⟩

theorem run_sound (r : Regex) : StepSound r r.run := by
  induction r with
  | lit ch =>
    intro s c k res h
    cases s with
    | nil => simp [Regex.run] at h
    | cons x xs =>
      simp only [Regex.run] at h
      split at h
      · rename_i hx
        subst hx
        exact ⟨[x], xs, c, rfl, Consumes.lit x c, h⟩
      · cases h
  | digit =>
    intro s c k res h
    cases s with
    | nil => simp [Regex.run] at h
    | cons x xs =>
      simp only [Regex.run] at h
      split at h
      · rename_i hx
        exact ⟨[x], xs, c, rfl, Consumes.digit x c hx, h⟩
      · cases h
  | anyNotNL =>
    intro s c k res h
    cases s with
    | nil => simp [Regex.run] at h
    | cons x xs =>
      simp only [Regex.run] at h
      split at h
      · cases h
      · rename_i hx
        exact ⟨[x], xs, c, rfl, Consumes.anyNotNL x c hx, h⟩
  | cat a b iha ihb =>
    intro s c k res h
    simp only [Regex.run] at h
    obtain ⟨t1, s1, c1, hs1, hc1, hk1⟩ := iha _ _ _ _ h
    obtain ⟨t2, s2, c2, hs2, hc2, hk2⟩ := ihb _ _ _ _ hk1
    refine ⟨t1 ++ t2, s2, c2, ?_, Consumes.cat hc1 hc2, hk2⟩
    rw [hs1, hs2, List.append_assoc]
  | star r ih =>
    intro s c k res h
    simp only [Regex.run] at h
    exact starLoop_sound r r.run ih _ _ _ _ _ h
  | plus r ih =>
    intro s c k res h
    simp only [Regex.run] at h
    obtain ⟨t1, s1, c1, hs1, hc1, hk1⟩ := ih _ _ _ _ h
    obtain ⟨t2, s2, c2, hs2, hc2, hk2⟩ := starLoop_sound r r.run ih _ _ _ _ _ hk1
    refine ⟨t1 ++ t2, s2, c2, ?_, Consumes.plus hc1 hc2, hk2⟩
    rw [hs1, hs2, List.append_assoc]
  | group i r ih =>
    intro s c k res h
    simp only [Regex.run] at h
    obtain ⟨t, s1, c1, hs1, hc1, hk1⟩ := ih _ _ _ _ h
    have htake : List.take (s.length - s1.length) s = t := by
      rw [hs1]
      simp
    rw [htake] at hk1
    exact ⟨t, s1, c1.set i (some t), hs1, Consumes.group i hc1, hk1⟩

theorem Consumes_length {r : Regex} {t : List Char} {c c1 : Caps}
    (h : Consumes r t c c1) : c1.length = c.length := by
  induction h with
  | lit => rfl
  | digit => rfl
  | anyNotNL => rfl
  | cat _ _ ih1 ih2 => rw [ih2, ih1]
  | starNil => rfl
  | starCons _ _ ih1 ih2 => rw [ih2, ih1]
  | plus _ _ ih1 ih2 => rw [ih2, ih1]
  | group i _ ih => rw [List.length_set, ih]

/-- A slot whose group does not occur in the expression keeps its value. -/
theorem Consumes_frame {r : Regex} {t : List Char} {c0 c1 : Caps} (j : Nat)
    (h : Consumes r t c0 c1) (hj : r.hasGroup j = false) : c1[j]? = c0[j]? := by
  induction h with
  | lit => rfl
  | digit => rfl
  | anyNotNL => rfl
  | cat _ _ ih1 ih2 =>
    simp only [Regex.hasGroup, Bool.or_eq_false_iff] at hj
    rw [ih2 hj.2, ih1 hj.1]
  | starNil => rfl
  | starCons _ _ ih1 ih2 =>
    have hj1 := hj
    simp only [Regex.hasGroup] at hj1
    rw [ih2 hj, ih1 hj1]
  | plus _ _ ih1 ih2 =>
    simp only [Regex.hasGroup] at hj
    rw [ih2 (by simpa [Regex.hasGroup] using hj), ih1 hj]
  | group i _ ih =>
    simp only [Regex.hasGroup, Bool.or_eq_false_iff, decide_eq_false_iff_not] at hj
    rw [List.getElem?_set_ne hj.1, ih hj.2]

/-- The text of a starred expression is a concatenation of texts of its
body. -/
theorem Consumes_star_parts (r0 : Regex) (P : List Char → Prop)
    (hP : ∀ t c c1, Consumes r0 t c c1 → P t) :
    ∀ r t c c1, Consumes r t c c1 → r = .star r0 →
      ∃ parts : List (List Char), (∀ p ∈ parts, P p) ∧ t = parts.flatten := by
  intro r t c c1 h
  induction h with
  | lit => intro hr; cases hr
  | digit => intro hr; cases hr
  | anyNotNL => intro hr; cases hr
  | cat => intro hr; cases hr
  | starNil => intro _; exact ⟨[], by simp, rfl⟩
  | starCons h1 _ _ ih2 =>
    intro hr
    cases hr
    obtain ⟨parts, hparts, ht⟩ := ih2 rfl
    refine ⟨_ :: parts, ?_, by rw [ht]; rfl⟩
    intro p hp
    rcases List.mem_cons.mp hp with rfl | hp
    · exact hP _ _ _ h1
    · exact hparts p hp
  | plus => intro hr; cases hr
  | group => intro hr; cases hr

/-- The text of `\d+` is a non-empty string of digits. -/
theorem Consumes_digits {t : List Char} {c c1 : Caps} (h : Consumes (.plus .digit) t c c1) :
    t ≠ [] ∧ ∀ x ∈ t, isDigitChar x = true := by
  have hone : ∀ t c c1, Consumes .digit t c c1 → ∃ x, isDigitChar x = true ∧ t = [x] := by
    intro t c c1 hd
    cases hd with
    | digit x _ hx => exact ⟨x, by simpa [isDigitChar] using hx, rfl⟩
  cases h with
  | plus h1 h2 =>
    obtain ⟨x, hx, rfl⟩ := hone _ _ _ h1
    obtain ⟨parts, hparts, rfl⟩ := Consumes_star_parts .digit _ hone _ _ _ _ h2 rfl
    refine ⟨by simp, ?_⟩
    intro y hy
    rcases List.mem_append.mp hy with hy | hy
    · rw [List.mem_singleton.mp hy]
      exact hx
    · obtain ⟨p, hp, hyp⟩ := List.mem_flatten.mp hy
      obtain ⟨z, hz, rfl⟩ := hparts p hp
      rw [List.mem_singleton.mp hyp]
      exact hz

theorem joinGroups_cons (g : List Char) (rest : List (List Char)) :
    joinGroups (g :: rest) = g ++ commaTail rest := by
  induction rest generalizing g with
  | nil => simp [joinGroups, commaTail]
  | cons g2 rest2 ih => simp [joinGroups, commaTail, ih g2]

theorem getElem?_set_same_length (a b : Caps) (i : Nat) (v : Option (List Char))
    (h : a.length = b.length) : (a.set i v)[i]? = (b.set i v)[i]? := by
  by_cases hi : i < a.length
  · rw [List.getElem?_set_self hi, List.getElem?_set_self (by omega)]
  · have h1 : (a.set i v).length ≤ i := by rw [List.length_set]; omega
    have h2 : (b.set i v).length ≤ i := by rw [List.length_set]; omega
    rw [List.getElem?_eq_none h1, List.getElem?_eq_none h2]

/-- The text of `\d+(,\d+)*` is a list of digit groups joined by commas. -/
theorem Consumes_byteCount {i : Nat} {t : List Char} {c0 c1 : Caps}
    (h : Consumes (byteCount i) t c0 c1) :
    ∃ groups : List (List Char), groups ≠ [] ∧
      (∀ g ∈ groups, g ≠ [] ∧ ∀ x ∈ g, isDigitChar x = true) ∧
      t = joinGroups groups ∧ c1[i]? = (c0.set i (some t))[i]? ∧ c1.length = c0.length := by
  have htail : ∀ t c c1, Consumes (.group (i + 1) (.cat (.lit ',') (.plus .digit))) t c c1 →
      ∃ g : List Char, (g ≠ [] ∧ ∀ x ∈ g, isDigitChar x = true) ∧ t = ',' :: g := by
    intro t c c1 hg
    cases hg with
    | group _ hcat =>
      cases hcat with
      | cat hl hd =>
        cases hl with
        | lit => exact ⟨_, Consumes_digits hd, rfl⟩
  have hlen := Consumes_length h
  unfold byteCount at h
  cases h with
  | group _ hbody =>
    cases hbody with
    | cat hd hs =>
      obtain ⟨parts, hparts, rfl⟩ := Consumes_star_parts _ _ htail _ _ _ _ hs rfl
      have hgroups : ∀ ps : List (List Char),
          (∀ p ∈ ps, ∃ g : List Char, (g ≠ [] ∧ ∀ x ∈ g, isDigitChar x = true) ∧ p = ',' :: g) →
          ∃ gs : List (List Char), (∀ g ∈ gs, g ≠ [] ∧ ∀ x ∈ g, isDigitChar x = true) ∧
            ps.flatten = commaTail gs := by
        intro ps
        induction ps with
        | nil => intro _; exact ⟨[], by simp, rfl⟩
        | cons p rest ih =>
          intro hps
          obtain ⟨g, hg, rfl⟩ := hps p (List.mem_cons_self _ _)
          obtain ⟨gs, hgs, hflat⟩ := ih (fun q hq => hps q (List.mem_cons_of_mem _ hq))
          refine ⟨g :: gs, ?_, by simp [commaTail, hflat]⟩
          intro g1 hg1
          rcases List.mem_cons.mp hg1 with rfl | hg1
          · exact hg
          · exact hgs g1 hg1
      obtain ⟨gs, hgs, hflat⟩ := hgroups parts hparts
      rename_i cfin t1 cmid
      refine ⟨t1 :: gs, by simp, ?_, ?_, ?_, ?_⟩
      · intro g hg
        rcases List.mem_cons.mp hg with rfl | hg
        · exact Consumes_digits hd
        · exact hgs g hg
      · rw [joinGroups_cons, hflat]
      · exact getElem?_set_same_length _ _ i _
          (by rw [Consumes_length hs, Consumes_length hd])
      · simpa using hlen

theorem search_matchAt (re : Regexp) (s : List Char) (res : Caps)
    (h : re.search s = some res) : ∃ s1, re.matchAt s1 = some res := by
  induction s with
  | nil => exact ⟨[], h⟩
  | cons x xs ih =>
    unfold Regexp.search at h
    split at h
    · rename_i c hc
      cases h
      exact ⟨x :: xs, hc⟩
    · exact ih h

/-- In every match of the progress pattern, capture slot 1 holds digit groups
joined by commas. -/
theorem progress_search_slot (s : List Char) (res : Caps)
    (h : progressMatcher.regExp.search s = some res) :
    ∃ groups : List (List Char), groups ≠ [] ∧
      (∀ g ∈ groups, g ≠ [] ∧ ∀ x ∈ g, isDigitChar x = true) ∧
      res[1]? = some (some (joinGroups groups)) ∧ res.length = 4 := by
  obtain ⟨s1, hm⟩ := search_matchAt _ _ _ h
  unfold Regexp.matchAt at hm
  obtain ⟨t, s2, c1, _, hcons, hk⟩ := run_sound _ _ _ _ _ hm
  simp only [Option.some.injEq] at hk
  subst hk
  simp only [progressMatcher] at hcons
  cases hcons with
  | group _ hbody =>
    cases hbody with
    | cat hbc hrest =>
      obtain ⟨groups, hne, hdig, ht, hslot, hlen⟩ := Consumes_byteCount hbc
      have hframe := Consumes_frame 1 hrest (by decide)
      have hlen2 := Consumes_length hrest
      refine ⟨groups, hne, hdig, ?_, ?_⟩
      · rw [List.getElem?_set_ne (by decide), hframe, hslot,
          List.getElem?_set_self (by simp), ht]
      · rw [List.length_set, hlen2, hlen]
        simp

/-- When the progress pattern matches a chunk, `Extract` with index 1 returns
digit groups joined by commas. -/
theorem progress_Extract_grouped (logStr : String)
    (h : progressMatcher.Match logStr = true) :
    ∃ groups : List (List Char), groups ≠ [] ∧
      (∀ g ∈ groups, g ≠ [] ∧ ∀ x ∈ g, isDigitChar x = true) ∧
      progressMatcher.Extract logStr 1 = some (String.mk (joinGroups groups)) := by
  unfold matcher.Match Regexp.Match at h
  cases hs : progressMatcher.regExp.search logStr.toList with
  | none =>
    rw [hs] at h
    cases h
  | some res =>
    obtain ⟨groups, hne, hdig, hslot, hlen⟩ := progress_search_slot _ _ hs
    refine ⟨groups, hne, hdig, ?_⟩
    have hw : wrapInt64 (1 + 1) = 2 := by decide
    simp only [matcher.Extract, Regexp.FindAllStringSubmatch1, hs, hw, Caps.strings,
      List.length_map, hlen, index?]
    simp [hslot]

/-! ### The scanners never fault -/

theorem wrapInt64_of_range (x : Int) (h1 : -9223372036854775808 ≤ x)
    (h2 : x ≤ 9223372036854775807) : wrapInt64 x = x := by
  unfold wrapInt64
  omega

/-- With group index 1 `Extract` returns a string on every matcher and chunk. -/
theorem Extract_one (m : matcher) (data : String) : ∃ v, m.Extract data 1 = some v := by
  unfold matcher.Extract
  have hw : wrapInt64 (1 + 1) = 2 := by decide
  cases m.regExp.FindAllStringSubmatch1 data with
  | nil => exact ⟨"", rfl⟩
  | cons m0 rest =>
    simp only [hw]
    by_cases hlen : (m0.length : Int) < 2
    · exact ⟨"", by simp [hlen]⟩
    · simp only [hlen, if_false, index?]
      have h2 : 1 < m0.length := by omega
      exact ⟨m0.get ⟨1, h2⟩, by simp [List.get?_eq_get h2]⟩

theorem scanTotal_some (info : Info) (logStr : String) :
    ∃ i1, scanTotal info logStr = some i1 ∧ i1.State = info.State := by
  obtain ⟨v, hv⟩ := Extract_one totalMatcher logStr
  unfold scanTotal
  split
  · simp only [hv, Option.map_some']
    exact ⟨_, rfl, rfl⟩
  · exact ⟨info, rfl, rfl⟩

theorem scanTrans_some (info : Info) (logStr : String) :
    ∃ i1, scanTrans info logStr = some i1 ∧ i1.State = info.State := by
  obtain ⟨v, hv⟩ := Extract_one transMatcher logStr
  unfold scanTrans
  split
  · simp only [hv, Option.map_some']
    exact ⟨_, rfl, rfl⟩
  · exact ⟨info, rfl, rfl⟩

theorem scanProgress_some (info : Info) (logStr : String) :
    ∃ i1, scanProgress info logStr = some i1 ∧ i1.RsyncState = info.RsyncState := by
  obtain ⟨v, hv⟩ := Extract_one progressMatcher logStr
  unfold scanProgress
  split
  · simp only [hv, Option.map_some']
    exact ⟨_, rfl, rfl⟩
  · exact ⟨info, rfl, rfl⟩

theorem scanSpeed_some (info : Info) (logStr : String) :
    ∃ i1, scanSpeed info logStr = some i1 ∧ i1.RsyncState = info.RsyncState ∧
      i1.State.Send = info.State.Send ∧ i1.State.Total = info.State.Total ∧
      i1.State.Progress = info.State.Progress := by
  obtain ⟨v, hv⟩ := Extract_one speedMatcher logStr
  unfold scanSpeed
  split
  · simp only [hv, Option.map_some']
    exact ⟨_, rfl, rfl, rfl, rfl, rfl⟩
  · exact ⟨info, rfl, rfl, rfl, rfl, rfl⟩

theorem processStdoutChunk_some (info : Info) (logStr : String) :
    ∃ info1, processStdoutChunk info logStr = some info1 := by
  obtain ⟨i1, h1, _⟩ := scanTotal_some info logStr
  obtain ⟨i2, h2, _⟩ := scanTrans_some i1 logStr
  obtain ⟨i3, h3, _⟩ := scanProgress_some i2 logStr
  obtain ⟨i4, h4, _⟩ := scanSpeed_some i3 logStr
  simp only [processStdoutChunk, h1, h2, h3, h4, Option.some_bind, Option.map_some']
  exact ⟨_, rfl⟩

theorem processStdout_some (info : Info) (chunks : List String) :
    ∃ info1, processStdout info chunks = some info1 := by
  induction chunks generalizing info with
  | nil => exact ⟨info, rfl⟩
  | cons chunk rest ih =>
    unfold processStdout
    by_cases hlen : chunk.length > 0
    · obtain ⟨i1, h1⟩ := processStdoutChunk_some info chunk
      simp only [hlen, if_true, h1]
      exact ih i1
    · simp only [hlen, if_false]
      exact ih info

/-! ### Steps of the scanners that nothing joins -/

theorem scanProgress_report (info i1 : Info) (logStr : String)
    (h : scanProgress info logStr = some i1) :
    i1.State = info.State ∨ (progressMatcher.Match logStr = true ∧ 0 < i1.State.Total) := by
  obtain ⟨v, hv⟩ := Extract_one progressMatcher logStr
  unfold scanProgress at h
  split at h
  · rename_i hcond
    simp only [hv, Option.map_some', Option.some.injEq] at h
    subst h
    exact Or.inr ⟨hcond.1, hcond.2⟩
  · simp only [Option.some.injEq] at h
    subst h
    exact Or.inl rfl

/-- One loop body of `processStdout` either leaves `State.Send`,
`State.Total` and `State.Progress` as they are, or it is on a chunk with a
progress line and leaves a positive `State.Total`. -/
theorem processStdoutChunk_report (info : Info) (logStr : String) :
    ∃ info1, processStdoutChunk info logStr = some info1 ∧
      ((info1.State.Send = info.State.Send ∧ info1.State.Total = info.State.Total ∧
          info1.State.Progress = info.State.Progress) ∨
        (progressMatcher.Match logStr = true ∧ 0 < info1.State.Total)) := by
  obtain ⟨i1, h1, hs1⟩ := scanTotal_some info logStr
  obtain ⟨i2, h2, hs2⟩ := scanTrans_some i1 logStr
  obtain ⟨i3, h3, _⟩ := scanProgress_some i2 logStr
  obtain ⟨i4, h4, _, hS, hT, hP⟩ := scanSpeed_some i3 logStr
  refine ⟨{ i4 with Log := { i4.Log with Stdout := i4.Log.Stdout ++ logStr } }, ?_, ?_⟩
  · simp only [processStdoutChunk, h1, h2, h3, h4, Option.some_bind, Option.map_some']
  · rcases scanProgress_report i2 i3 logStr h3 with hk | ⟨hm, hpos⟩
    · left
      show i4.State.Send = _ ∧ i4.State.Total = _ ∧ i4.State.Progress = _
      rw [hS, hT, hP, hk, hs2, hs1]
      exact ⟨rfl, rfl, rfl⟩
    · right
      refine ⟨hm, ?_⟩
      show 0 < i4.State.Total
      rw [hT]
      exact hpos

/-- A scanner step never faults; it either leaves `State.Send`,
`State.Total` and `State.Progress` as they are, or it carries a progress
line and leaves a positive `State.Total`. -/
theorem scanStep_report (info : Info) (st : ScanStep) :
    ∃ info1, scanStep info st = some info1 ∧
      ((info1.State.Send = info.State.Send ∧ info1.State.Total = info.State.Total ∧
          info1.State.Progress = info.State.Progress) ∨
        (st.reportsProgress = true ∧ 0 < info1.State.Total)) := by
  cases st with
  | out chunk =>
    by_cases hlen : chunk.length > 0
    · obtain ⟨i1, h1, hrep⟩ := processStdoutChunk_report info chunk
      refine ⟨i1, ?_, hrep⟩
      simp only [scanStep, processStdout, hlen, if_true, h1]
    · refine ⟨info, ?_, Or.inl ⟨rfl, rfl, rfl⟩⟩
      simp only [scanStep, processStdout, hlen, if_false]
  | err chunk =>
    refine ⟨processStderr info [chunk], rfl, Or.inl ?_⟩
    simp only [processStderr]
    split <;> exact ⟨rfl, rfl, rfl⟩

/-- Late steps never fault, and they keep every fact of the form
`State.Total = 0 → P State.Send State.Progress`. -/
theorem applyLate_zero_total (P : Int → ℚ → Prop) (info : Info) (steps : List ScanStep)
    (h : info.State.Total = 0 → P info.State.Send info.State.Progress) :
    ∃ info1, applyLate info steps = some info1 ∧
      (info1.State.Total = 0 → P info1.State.Send info1.State.Progress) := by
  induction steps generalizing info with
  | nil => exact ⟨info, rfl, h⟩
  | cons st rest ih =>
    obtain ⟨i1, h1, hrep⟩ := scanStep_report info st
    simp only [applyLate, h1]
    apply ih
    rcases hrep with ⟨hS, hT, hP⟩ | ⟨_, hpos⟩
    · rw [hS, hT, hP]
      exact h
    · intro hz
      omega

/-- Late steps without a progress line leave `State.Send`, `State.Total`
and `State.Progress` as they are. -/
theorem applyLate_quiet (info : Info) (steps : List ScanStep)
    (hq : ∀ st ∈ steps, st.reportsProgress = false) :
    ∃ info1, applyLate info steps = some info1 ∧
      info1.State.Send = info.State.Send ∧ info1.State.Total = info.State.Total ∧
      info1.State.Progress = info.State.Progress := by
  induction steps generalizing info with
  | nil => exact ⟨info, rfl, rfl, rfl, rfl⟩
  | cons st rest ih =>
    obtain ⟨i1, h1, hrep⟩ := scanStep_report info st
    obtain ⟨i2, h2, hS2, hT2, hP2⟩ := ih i1 (fun s hs => hq s (List.mem_cons_of_mem _ hs))
    refine ⟨i2, ?_, ?_⟩
    · simp only [applyLate, h1, h2]
    · rcases hrep with ⟨hS, hT, hP⟩ | ⟨hm, _⟩
      · exact ⟨hS2.trans hS, hT2.trans hT, hP2.trans hP⟩
      · rw [hq st (List.mem_cons_self _ _)] at hm
        exact absurd hm (by decide)

/-- What `Info.Run` hands back as pending is what the schedule lists, or
nothing. -/
theorem Run_pending (sys : Cmd → ProcRun) (info : Info) (cmd : Cmd)
    (hcmd : info.Cmd = some cmd) (hs : (sys cmd).succeeds) :
    (Info.Run sys info).lateMid = (sys cmd).lateMid ∧
    (Info.Run sys info).lateEnd = (sys cmd).lateEnd := by
  obtain ⟨h1, h2, h3⟩ := hs
  obtain ⟨i1, hi⟩ := processStdout_some info (sys cmd).stdout
  simp [Info.Run, hcmd, h1, h2, hi]

/-! ### `command` and `Run` -/

theorem command_valid (r : Rsync) (dst : String) (src : List String)
    (hsrc : src ≠ []) (hdst : dst ≠ "")
    (hremote : r.Options.RemoteShell ≠ "" → r.Options.RemoteHost ≠ "") :
    ∃ cmd, r.command dst src = some (some cmd) := by
  unfold Rsync.command
  rw [GetArgs_valid r.Options dst src hsrc hdst hremote]
  exact ⟨_, rfl⟩

theorem Run_succeeds (sys : Cmd → ProcRun) (info : Info) (cmd : Cmd)
    (hcmd : info.Cmd = some cmd) (hs : (sys cmd).succeeds) :
    (Info.Run sys info).result = some none := by
  obtain ⟨h1, h2, h3⟩ := hs
  obtain ⟨i1, hi⟩ := processStdout_some info (sys cmd).stdout
  simp [Info.Run, hcmd, h1, h2, h3, hi]

/-! ## Claims about `Options.GetArgs` -/

/-- C6: `Options.GetArgs` returns an error exactly when the source list is
empty, or the destination is the empty string, or a remote shell is set
while the remote host is empty; on every other input it returns an argument
list. -/
theorem GetArgs_error_iff (c : Options) (dst : String) (src : List String) :
    ((∃ e, c.GetArgs dst src = .error e) ↔
      (src = [] ∨ dst = "" ∨ (c.RemoteShell ≠ "" ∧ c.RemoteHost = ""))) ∧
    ((src = [] ∨ dst = "" ∨ (c.RemoteShell ≠ "" ∧ c.RemoteHost = "")) ∨
      ∃ args, c.GetArgs dst src = .ok args) := by
  by_cases hbad : src = [] ∨ dst = "" ∨ (c.RemoteShell ≠ "" ∧ c.RemoteHost = "")
  · exact ⟨⟨fun _ => hbad, fun _ => GetArgs_invalid c dst src hbad⟩, Or.inl hbad⟩
  · have hsrc : src ≠ [] := fun h => hbad (Or.inl h)
    have hdst : dst ≠ "" := fun h => hbad (Or.inr (Or.inl h))
    have hrem : c.RemoteShell ≠ "" → c.RemoteHost ≠ "" :=
      fun hs hh => hbad (Or.inr (Or.inr ⟨hs, hh⟩))
    have hok := GetArgs_valid c dst src hsrc hdst hrem
    refine ⟨⟨?_, fun h => absurd h hbad⟩, Or.inr ⟨_, hok⟩⟩
    rintro ⟨e, he⟩
    rw [hok] at he
    cases he

/-- C8: with a remote shell and a remote host set, a non-empty destination
and at least one source, the list `GetArgs` returns contains `--rsh`
immediately followed by the remote shell and ends with `host:dst`; with no
remote shell it ends with `dst` itself. -/
theorem GetArgs_remote (c : Options) (dst : String) (src : List String)
    (hdst : dst ≠ "") (hsrc : src ≠ []) :
    (c.RemoteShell ≠ "" → c.RemoteHost ≠ "" →
      ∃ pre post, c.GetArgs dst src = .ok (pre ++ "--rsh" :: c.RemoteShell :: post) ∧
        (pre ++ "--rsh" :: c.RemoteShell :: post).getLast? = some (c.RemoteHost ++ ":" ++ dst)) ∧
    (c.RemoteShell = "" →
      ∃ args, c.GetArgs dst src = .ok args ∧ args.getLast? = some dst) := by
  constructor
  · intro hs hh
    refine ⟨"rsync" :: (flagsOf c ++ excludeBlock c.Exclude),
      c.Additional ++ src ++ [c.RemoteHost ++ ":" ++ dst], ?_, ?_⟩
    · rw [GetArgs_valid c dst src hsrc hdst (fun _ => hh)]
      simp [rshPair, dstArg, hs]
    · have h := getLast?_append_singleton
        ("rsync" :: (flagsOf c ++ excludeBlock c.Exclude) ++
          "--rsh" :: c.RemoteShell :: (c.Additional ++ src)) (c.RemoteHost ++ ":" ++ dst)
      simpa using h
  · intro hs
    refine ⟨_, GetArgs_valid c dst src hsrc hdst (fun h => absurd hs h), ?_⟩
    have h := getLast?_append_singleton
      ("rsync" :: (flagsOf c ++ excludeBlock c.Exclude ++ rshPair c ++ c.Additional ++ src)) dst
    simpa [dstArg, hs] using h

/-- C8 at `remoteOptions` (remote shell set) and at `DefaultOptions` (no
remote shell), destination `/c`, source `/a/b`. -/
theorem GetArgs_remote_witness :
    (∃ pre post, remoteOptions.GetArgs "/c" ["/a/b"] =
        .ok (pre ++ "--rsh" :: remoteOptions.RemoteShell :: post) ∧
      (pre ++ "--rsh" :: remoteOptions.RemoteShell :: post).getLast? =
        some (remoteOptions.RemoteHost ++ ":" ++ "/c")) ∧
    (∃ args, DefaultOptions.GetArgs "/c" ["/a/b"] = .ok args ∧ args.getLast? = some "/c") :=
  ⟨(GetArgs_remote remoteOptions "/c" ["/a/b"] (by decide) (by decide)).1
      (by decide) (by decide),
    (GetArgs_remote DefaultOptions "/c" ["/a/b"] (by decide) (by decide)).2 (by decide)⟩

/-- C9: when `GetArgs` succeeds, the result is `rsync`, the boolean flags,
then the contiguous block of `--exclude` pairs in the order of `Exclude`,
then the `--rsh` pair (if any), the additional options, the sources and the
destination. -/
theorem GetArgs_exclude_block (c : Options) (dst : String) (src : List String)
    (args : List String) (h : c.GetArgs dst src = .ok args) :
    ∃ flags, (∀ f ∈ flags, f ∈ booleanFlags) ∧
      args = ("rsync" :: flags) ++ excludeBlock c.Exclude ++
        (rshPair c ++ c.Additional ++ src ++ [dstArg c dst]) := by
  refine ⟨flagsOf c, flagsOf_subset c, ?_⟩
  rw [GetArgs_ok_shape c dst src args h]
  simp

/-- C9 at `remoteOptions`, whose exclusion list is `*.tmp`, `.git`. -/
theorem GetArgs_exclude_block_witness :
    remoteOptions.GetArgs "/c" ["/a/b"] =
        .ok ["rsync", "--archive", "--compress", "--info=progress2", "--no-i-r", "--partial",
          "--exclude", "*.tmp", "--exclude", ".git", "--rsh", "ssh -p 22", "--numeric-ids",
          "/a/b", "backup:/c"] ∧
    ∃ flags, (∀ f ∈ flags, f ∈ booleanFlags) ∧
      ["rsync", "--archive", "--compress", "--info=progress2", "--no-i-r", "--partial",
          "--exclude", "*.tmp", "--exclude", ".git", "--rsh", "ssh -p 22", "--numeric-ids",
          "/a/b", "backup:/c"] = ("rsync" :: flags) ++ excludeBlock remoteOptions.Exclude ++
        (rshPair remoteOptions ++ remoteOptions.Additional ++ ["/a/b"] ++
          [dstArg remoteOptions "/c"]) :=
  ⟨by decide, GetArgs_exclude_block remoteOptions "/c" ["/a/b"] _ (by decide)⟩

/-- C10: when `GetArgs` succeeds, the result starts with `rsync` and ends
with the sources in their given order followed by one destination element,
which is `dst` or `host:dst`. -/
theorem GetArgs_sources_then_destination (c : Options) (dst : String) (src : List String)
    (args : List String) (h : c.GetArgs dst src = .ok args) :
    args.head? = some "rsync" ∧
    ∃ mid d, args = "rsync" :: (mid ++ src ++ [d]) ∧
      (d = dst ∨ d = c.RemoteHost ++ ":" ++ dst) := by
  rw [GetArgs_ok_shape c dst src args h]
  refine ⟨rfl, flagsOf c ++ excludeBlock c.Exclude ++ rshPair c ++ c.Additional,
    dstArg c dst, rfl, ?_⟩
  unfold dstArg
  split
  · exact Or.inr rfl
  · exact Or.inl rfl

/-- C10 at `remoteOptions` with two sources. -/
theorem GetArgs_sources_then_destination_witness :
    remoteOptions.GetArgs "/c" ["/a/b", "/a/d"] =
        .ok ["rsync", "--archive", "--compress", "--info=progress2", "--no-i-r", "--partial",
          "--exclude", "*.tmp", "--exclude", ".git", "--rsh", "ssh -p 22", "--numeric-ids",
          "/a/b", "/a/d", "backup:/c"] ∧
    (["rsync", "--archive", "--compress", "--info=progress2", "--no-i-r", "--partial",
          "--exclude", "*.tmp", "--exclude", ".git", "--rsh", "ssh -p 22", "--numeric-ids",
          "/a/b", "/a/d", "backup:/c"].head? = some "rsync" ∧
      ∃ mid d, ["rsync", "--archive", "--compress", "--info=progress2", "--no-i-r", "--partial",
          "--exclude", "*.tmp", "--exclude", ".git", "--rsh", "ssh -p 22", "--numeric-ids",
          "/a/b", "/a/d", "backup:/c"] = "rsync" :: (mid ++ ["/a/b", "/a/d"] ++ [d]) ∧
        (d = "/c" ∨ d = remoteOptions.RemoteHost ++ ":" ++ "/c")) :=
  ⟨by decide, GetArgs_sources_then_destination remoteOptions "/c" ["/a/b", "/a/d"] _ (by decide)⟩

/-! ## Claims about `convertBytesNum` -/

/-- C4, as amended: for digit groups joined by commas, `convertBytesNum`
returns the number the digits denote when that number is at most
`2^63 - 1`, and `0` when it is larger. -/
theorem convertBytesNum_grouped (groups : List (List Char)) (hne : groups ≠ [])
    (hd : ∀ g ∈ groups, g ≠ [] ∧ ∀ c ∈ g, isDigitChar c = true) :
    convertBytesNum (String.mk (joinGroups groups)) =
      if decimalValue groups.flatten ≤ 9223372036854775807 then
        (decimalValue groups.flatten : Int)
      else 0 := by
  unfold convertBytesNum
  simp only [String.toList]
  rw [parseInt_joinGroups groups hne hd]
  by_cases hfit : decimalValue groups.flatten ≤ 9223372036854775807
  · simp [hfit]
  · simp [hfit]

/-- C4 at the groups `4`, `662`, `518`, `418`. -/
theorem convertBytesNum_grouped_witness :
    convertBytesNum "4,662,518,418" = 4662518418 := by
  have h := convertBytesNum_grouped ["4".toList, "662".toList, "518".toList, "418".toList]
    (by decide) (by decide)
  have hv : decimalValue
      ["4".toList, "662".toList, "518".toList, "418".toList].flatten = 4662518418 := by decide
  rw [hv] at h
  simpa using h

/-- C4 as stated fails: the digit groups `9,223,372,036,854,775,808` denote
`2^63`, and `convertBytesNum` returns `0` for them. -/
theorem convertBytesNum_grouped_overflow :
    joinGroups ["9".toList, "223".toList, "372".toList, "036".toList, "854".toList,
        "775".toList, "808".toList] = "9,223,372,036,854,775,808".toList ∧
    decimalValue ("9,223,372,036,854,775,808".toList.filter (fun c => c ≠ ',')) =
      9223372036854775808 ∧
    convertBytesNum "9,223,372,036,854,775,808" = 0 ∧
    convertBytesNum "9,223,372,036,854,775,808" ≠
      (decimalValue ("9,223,372,036,854,775,808".toList.filter (fun c => c ≠ ',')) : Int) := by
  decide

/-- C5: for every string that, after deleting all commas, is not an
optionally signed base-10 integer, `convertBytesNum` returns `0`. -/
theorem convertBytesNum_non_numeric (str : String)
    (h : isSignedDecimal (str.toList.filter (fun c => c ≠ ',')) = false) :
    convertBytesNum str = 0 := by
  unfold convertBytesNum
  cases hp : parseInt (removeCommas str.toList) with
  | error e => simp only [hp]
  | ok v =>
    have := parseInt_ok_signed _ v hp
    simp only [removeCommas] at this
    rw [this] at h
    cases h

/-- C5 at the empty string, a string of commas and a string of letters. -/
theorem convertBytesNum_non_numeric_witness :
    convertBytesNum "" = 0 ∧ convertBytesNum ",,," = 0 ∧ convertBytesNum "12MB" = 0 :=
  ⟨convertBytesNum_non_numeric "" (by decide), convertBytesNum_non_numeric ",,," (by decide),
    convertBytesNum_non_numeric "12MB" (by decide)⟩

/-! ## Claims about the scanner and the copy -/

/-- C1: in a state whose discovery totals are `Total = T > 0` and
`Trans = R`, on a chunk with a progress line and neither a total-size nor a
transferred-size line, one step of `processStdout` sets `State.Total = T`,
`State.Send = s + (T - R)` where `s` is the comma-stripped byte count of the
progress line, and `State.Progress = 100 * State.Send / T`, provided `s`,
`T - R` and `s + (T - R)` are in the `int64` range. -/
theorem processStdoutChunk_progress (info : Info) (logStr : String)
    (hT : 0 < info.RsyncState.Total)
    (hprog : progressMatcher.Match logStr = true)
    (htot : totalMatcher.Match logStr = false)
    (htrans : transMatcher.Match logStr = false)
    (hfit : progressCount logStr ≤ 9223372036854775807)
    (hpart : -9223372036854775808 ≤ info.RsyncState.Total - info.RsyncState.Trans ∧
      info.RsyncState.Total - info.RsyncState.Trans ≤ 9223372036854775807)
    (hsend : -9223372036854775808 ≤
        (progressCount logStr : Int) + (info.RsyncState.Total - info.RsyncState.Trans) ∧
      (progressCount logStr : Int) + (info.RsyncState.Total - info.RsyncState.Trans) ≤
        9223372036854775807) :
    ∃ info1, processStdoutChunk info logStr = some info1 ∧
      info1.State.Total = info.RsyncState.Total ∧
      info1.State.Send =
        (progressCount logStr : Int) + (info.RsyncState.Total - info.RsyncState.Trans) ∧
      info1.State.Progress = 100 * (info1.State.Send : ℚ) / (info.RsyncState.Total : ℚ) := by
  obtain ⟨groups, hne, hdig, hcap⟩ := progress_Extract_grouped logStr hprog
  have hcount : progressCount logStr = decimalValue groups.flatten := by
    have hrm := removeCommas_joinGroups groups (fun g hg => (hdig g hg).2)
    simp only [removeCommas] at hrm
    simp only [progressCount, hcap, String.toList, hrm]
  rw [hcount] at hfit hsend ⊢
  have hconv : convertBytesNum (String.mk (joinGroups groups)) =
      (decimalValue groups.flatten : Int) := by
    unfold convertBytesNum
    simp only [String.toList]
    rw [parseInt_joinGroups groups hne hdig]
    simp [hfit]
  have h1 : scanTotal info logStr = some info := by simp [scanTotal, htot]
  have h2 : scanTrans info logStr = some info := by simp [scanTrans, htrans]
  have hw1 := wrapInt64_of_range _ hpart.1 hpart.2
  have hw2 := wrapInt64_of_range _ hsend.1 hsend.2
  have h3 : scanProgress info logStr = some { info with State := { info.State with
      Total := info.RsyncState.Total,
      Send := (decimalValue groups.flatten : Int) +
        (info.RsyncState.Total - info.RsyncState.Trans),
      Progress := (((decimalValue groups.flatten : Int) +
        (info.RsyncState.Total - info.RsyncState.Trans) : Int) : ℚ) /
          (info.RsyncState.Total : ℚ) * 100 } } := by
    simp only [scanProgress, hprog, hT, gt_iff_lt, and_self, if_true, hcap, Option.map_some',
      hconv, hw1, hw2]
  obtain ⟨i4, h4, _, hS, hTt, hP⟩ := scanSpeed_some { info with State := { info.State with
      Total := info.RsyncState.Total,
      Send := (decimalValue groups.flatten : Int) +
        (info.RsyncState.Total - info.RsyncState.Trans),
      Progress := (((decimalValue groups.flatten : Int) +
        (info.RsyncState.Total - info.RsyncState.Trans) : Int) : ℚ) /
          (info.RsyncState.Total : ℚ) * 100 } } logStr
  refine ⟨{ i4 with Log := { i4.Log with Stdout := i4.Log.Stdout ++ logStr } }, ?_, ?_, ?_, ?_⟩
  · simp only [processStdoutChunk, h1, h2, h3, h4, Option.some_bind, Option.map_some']
  · exact hTt
  · exact hS
  · show i4.State.Progress = 100 * (i4.State.Send : ℚ) / (info.RsyncState.Total : ℚ)
    rw [hP, hS]
    ring

/-- C1 at the totals `T = 4662518418`, `R = 1555052808` and the progress
line of 120,324,096 bytes: `Send` becomes `3227789706`. -/
theorem processStdoutChunk_progress_witness :
    progressCount "120,324,096  11%   57.38MB/s    0:00:15" = 120324096 ∧
    ∃ info1, processStdoutChunk ⟨none, ⟨4662518418, 1555052808⟩, ⟨0, 0, "", 0⟩, ⟨"", ""⟩⟩
        "120,324,096  11%   57.38MB/s    0:00:15" = some info1 ∧
      info1.State.Total = 4662518418 ∧
      info1.State.Send = 3227789706 ∧
      info1.State.Progress = 100 * (3227789706 : ℚ) / (4662518418 : ℚ) := by
  have hb : progressCount "120,324,096  11%   57.38MB/s    0:00:15" = 120324096 := by decide
  obtain ⟨i1, h1, h2, h3, h4⟩ := processStdoutChunk_progress
    ⟨none, ⟨4662518418, 1555052808⟩, ⟨0, 0, "", 0⟩, ⟨"", ""⟩⟩
    "120,324,096  11%   57.38MB/s    0:00:15"
    (by decide) (by decide) (by decide) (by decide) (by rw [hb]; decide) (by decide)
    (by rw [hb]; decide)
  rw [hb] at h3
  have h3b : i1.State.Send = 3227789706 := by rw [h3]; decide
  refine ⟨hb, i1, h1, h2, h3b, ?_⟩
  rw [h4, h3b]
  norm_num

/-- C2 as stated fails: the discovery run prints the totals and succeeds,
the transfer run succeeds, `Copy` returns `nil` after writing
`State.Send = State.Total = 4662518418` and `State.Progress = 100`; the
stdout scanner of the transfer run, which nothing joins, then finishes its
step on the progress line `120,324,096  11%` and leaves
`State.Send = 3227789706` with a percentage below `100`. When that step
lands between the two closing writes, `State.Send` differs from
`State.Total` already when `Copy` returns. -/
theorem scanner_step_after_finalization :
    (statsRun none).succeeds ∧ lateRun.succeeds ∧ midRun.succeeds ∧
    (Rsync.Copy (fun _ => statsRun none) (fun _ => lateRun) ⟨DefaultOptions, NewInfo⟩
      "/c" ["/a/b"]).result = some none ∧
    (Rsync.Copy (fun _ => statsRun none) (fun _ => lateRun) ⟨DefaultOptions, NewInfo⟩
      "/c" ["/a/b"]).rsync.Info.State.Send = 4662518418 ∧
    (Rsync.Copy (fun _ => statsRun none) (fun _ => lateRun) ⟨DefaultOptions, NewInfo⟩
      "/c" ["/a/b"]).rsync.Info.State.Progress = 100 ∧
    (∃ info, (Rsync.Copy (fun _ => statsRun none) (fun _ => lateRun) ⟨DefaultOptions, NewInfo⟩
        "/c" ["/a/b"]).settled = some info ∧
      info.State.Total = 4662518418 ∧ info.State.Send = 3227789706 ∧
      info.State.Progress < 100) ∧
    (Rsync.Copy (fun _ => statsRun none) (fun _ => midRun) ⟨DefaultOptions, NewInfo⟩
      "/c" ["/a/b"]).result = some none ∧
    (Rsync.Copy (fun _ => statsRun none) (fun _ => midRun) ⟨DefaultOptions, NewInfo⟩
      "/c" ["/a/b"]).rsync.Info.State.Total = 4662518418 ∧
    (Rsync.Copy (fun _ => statsRun none) (fun _ => midRun) ⟨DefaultOptions, NewInfo⟩
      "/c" ["/a/b"]).rsync.Info.State.Send = 3227789706 := by
  refine ⟨by decide, by decide, by decide, by decide, by decide, by decide,
    ⟨_, rfl, ?_, ?_, ?_⟩, by decide, by decide, by decide⟩
  · decide
  · decide
  · show ((3227789706 : Int) : ℚ) / ((4662518418 : Int) : ℚ) * 100 < 100
    norm_num

/-- C2, as amended: when the arguments are valid, the subprocesses of the
discovery command and of the transfer command both succeed, and no scanner
step that lands after `Cmd.Run` has returned carries a progress line, then
`Copy` returns `nil`, and both the state at the return and the state after
the last scanner step have `State.Send = State.Total` and
`State.Progress = 100`, whatever the two subprocesses printed. -/
theorem Copy_success (sys1 sys2 : Cmd → ProcRun) (r : Rsync) (dst : String) (src : List String)
    (hsrc : src ≠ []) (hdst : dst ≠ "")
    (hremote : r.Options.RemoteShell ≠ "" → r.Options.RemoteHost ≠ "")
    (h1 : ∀ c, Rsync.command { Options := { r.Options with Stats := true }, Info := NewInfo }
      dst src = some (some c) → (sys1 c).succeeds)
    (h2 : ∀ c i, Rsync.command { Options := { r.Options with Stats := false }, Info := i }
      dst src = some (some c) → (sys2 c).succeeds)
    (hq1 : ∀ c, Rsync.command { Options := { r.Options with Stats := true }, Info := NewInfo }
      dst src = some (some c) → (sys1 c).quietAfter)
    (hq2 : ∀ c i, Rsync.command { Options := { r.Options with Stats := false }, Info := i }
      dst src = some (some c) → (sys2 c).quietAfter) :
    (r.Copy sys1 sys2 dst src).result = some none ∧
    (r.Copy sys1 sys2 dst src).rsync.Info.State.Send =
      (r.Copy sys1 sys2 dst src).rsync.Info.State.Total ∧
    (r.Copy sys1 sys2 dst src).rsync.Info.State.Progress = 100 ∧
    ∃ info, (r.Copy sys1 sys2 dst src).settled = some info ∧
      info.State.Send = info.State.Total ∧ info.State.Progress = 100 := by
  obtain ⟨cmd1, hc1⟩ := command_valid
    { Options := { r.Options with Stats := true }, Info := NewInfo } dst src hsrc hdst hremote
  have hr1 := Run_succeeds sys1 { NewInfo with Cmd := some cmd1 } cmd1 rfl (h1 cmd1 hc1)
  obtain ⟨hm1, he1⟩ := Run_pending sys1 { NewInfo with Cmd := some cmd1 } cmd1 rfl (h1 cmd1 hc1)
  obtain ⟨cmd2, hc2⟩ := command_valid
    { Options := { r.Options with Stats := false },
      Info := (Info.Run sys1 { NewInfo with Cmd := some cmd1 }).info } dst src hsrc hdst hremote
  have hr2 := Run_succeeds sys2
    { (Info.Run sys1 { NewInfo with Cmd := some cmd1 }).info with Cmd := some cmd2 } cmd2 rfl
    (h2 cmd2 _ hc2)
  obtain ⟨hm2, he2⟩ := Run_pending sys2
    { (Info.Run sys1 { NewInfo with Cmd := some cmd1 }).info with Cmd := some cmd2 } cmd2 rfl
    (h2 cmd2 _ hc2)
  have hq1c := hq1 cmd1 hc1
  have hq2c := hq2 cmd2 _ hc2
  generalize hrun2 : Info.Run sys2
    { (Info.Run sys1 { NewInfo with Cmd := some cmd1 }).info with Cmd := some cmd2 } = run2
    at hr2 hm2 he2
  generalize hrun1 : Info.Run sys1 { NewInfo with Cmd := some cmd1 } = run1
    at hr1 hm1 he1 hc2 hrun2
  obtain ⟨i3, h3, hS3, hT3, hP3⟩ := applyLate_quiet
    { run2.info with State := { run2.info.State with Send := run2.info.State.Total } }
    ((sys1 cmd1).lateMid ++ (sys2 cmd2).lateMid)
    (fun st hst => by
      rcases List.mem_append.1 hst with h | h
      · exact hq1c st (List.mem_append_left _ h)
      · exact hq2c st (List.mem_append_left _ h))
  obtain ⟨i4, h4, hS4, hT4, hP4⟩ := applyLate_quiet
    { i3 with State := { i3.State with Progress := 100 } }
    ((sys1 cmd1).lateEnd ++ (sys2 cmd2).lateEnd)
    (fun st hst => by
      rcases List.mem_append.1 hst with h | h
      · exact hq1c st (List.mem_append_right _ h)
      · exact hq2c st (List.mem_append_right _ h))
  have hcopy : r.Copy sys1 sys2 dst src =
      ⟨{ Options := { r.Options with Stats := false },
          Info := { i3 with State := { i3.State with Progress := 100 } } },
        [cmd1, cmd2], some none, (sys1 cmd1).lateEnd ++ (sys2 cmd2).lateEnd⟩ := by
    simp only [Rsync.Copy, hc1, hrun1, hr1, hc2, hrun2, hr2, hm1, he1, hm2, he2, h3]
    rfl
  rw [hcopy]
  refine ⟨rfl, ?_, rfl, i4, h4, ?_, ?_⟩
  · show i3.State.Send = i3.State.Total
    rw [hS3, hT3]
  · rw [hS4, hT4]
    show i3.State.Send = i3.State.Total
    rw [hS3, hT3]
  · rw [hP4]

/-- C2, as amended, at the default options with a discovery run that prints
the totals and a transfer run whose last progress line shows 120,324,096
bytes: the final state is forced to the total; and at a transfer run whose
scanners make a step without a progress line after `Cmd.Run` returned. -/
theorem Copy_success_witness :
    ((Rsync.Copy (fun _ => statsRun none) (fun _ => progressRun none) ⟨DefaultOptions, NewInfo⟩
        "/c" ["/a/b"]).result = some none ∧
      (Rsync.Copy (fun _ => statsRun none) (fun _ => progressRun none) ⟨DefaultOptions, NewInfo⟩
        "/c" ["/a/b"]).rsync.Info.State.Send =
        (Rsync.Copy (fun _ => statsRun none) (fun _ => progressRun none) ⟨DefaultOptions, NewInfo⟩
          "/c" ["/a/b"]).rsync.Info.State.Total ∧
      (Rsync.Copy (fun _ => statsRun none) (fun _ => progressRun none) ⟨DefaultOptions, NewInfo⟩
        "/c" ["/a/b"]).rsync.Info.State.Progress = 100 ∧
      ∃ info, (Rsync.Copy (fun _ => statsRun none) (fun _ => progressRun none)
          ⟨DefaultOptions, NewInfo⟩ "/c" ["/a/b"]).settled = some info ∧
        info.State.Send = info.State.Total ∧ info.State.Progress = 100) ∧
    (Rsync.Copy (fun _ => statsRun none) (fun _ => progressRun none) ⟨DefaultOptions, NewInfo⟩
        "/c" ["/a/b"]).rsync.Info.State.Total = 4662518418 ∧
    ((Rsync.Copy (fun _ => statsRun none) (fun _ => lateLogRun) ⟨DefaultOptions, NewInfo⟩
        "/c" ["/a/b"]).result = some none ∧
      (Rsync.Copy (fun _ => statsRun none) (fun _ => lateLogRun) ⟨DefaultOptions, NewInfo⟩
        "/c" ["/a/b"]).rsync.Info.State.Send =
        (Rsync.Copy (fun _ => statsRun none) (fun _ => lateLogRun) ⟨DefaultOptions, NewInfo⟩
          "/c" ["/a/b"]).rsync.Info.State.Total ∧
      (Rsync.Copy (fun _ => statsRun none) (fun _ => lateLogRun) ⟨DefaultOptions, NewInfo⟩
        "/c" ["/a/b"]).rsync.Info.State.Progress = 100 ∧
      ∃ info, (Rsync.Copy (fun _ => statsRun none) (fun _ => lateLogRun)
          ⟨DefaultOptions, NewInfo⟩ "/c" ["/a/b"]).settled = some info ∧
        info.State.Send = info.State.Total ∧ info.State.Progress = 100) ∧
    (Rsync.Copy (fun _ => statsRun none) (fun _ => lateLogRun) ⟨DefaultOptions, NewInfo⟩
        "/c" ["/a/b"]).pending = [.err "rsync: warning\n"] :=
  ⟨Copy_success (fun _ => statsRun none) (fun _ => progressRun none) ⟨DefaultOptions, NewInfo⟩
    "/c" ["/a/b"] (by decide) (by decide) (by decide)
    (fun _ _ => ⟨rfl, rfl, rfl⟩) (fun _ _ _ => ⟨rfl, rfl, rfl⟩)
    (fun _ _ => (by decide : (statsRun none).quietAfter))
    (fun _ _ _ => (by decide : (progressRun none).quietAfter)), by decide,
   Copy_success (fun _ => statsRun none) (fun _ => lateLogRun) ⟨DefaultOptions, NewInfo⟩
    "/c" ["/a/b"] (by decide) (by decide) (by decide)
    (fun _ _ => ⟨rfl, rfl, rfl⟩) (fun _ _ _ => ⟨rfl, rfl, rfl⟩)
    (fun _ _ => (by decide : (statsRun none).quietAfter))
    (fun _ _ _ => (by decide : lateLogRun.quietAfter)), by decide⟩

/-- C3: when the discovery run returns an error `e`, `Copy` returns `e`, has
built the discovery command only, and leaves `Info` as that run left it; when
the discovery run returns `nil` and the transfer run returns an error `e`,
`Copy` returns `e` and leaves `Info` as the transfer run left it. In both
cases `State` is not overwritten after the run. -/
theorem Copy_failure (sys1 sys2 : Cmd → ProcRun) (r : Rsync) (dst : String)
    (src : List String) (e : String) (cmd1 : Cmd)
    (hc1 : Rsync.command { Options := { r.Options with Stats := true }, Info := NewInfo }
      dst src = some (some cmd1)) :
    ((Info.Run sys1 { NewInfo with Cmd := some cmd1 }).result = some (some e) →
      (r.Copy sys1 sys2 dst src).result = some (some e) ∧
      (r.Copy sys1 sys2 dst src).built = [cmd1] ∧
      (r.Copy sys1 sys2 dst src).rsync.Info =
        (Info.Run sys1 { NewInfo with Cmd := some cmd1 }).info) ∧
    ((Info.Run sys1 { NewInfo with Cmd := some cmd1 }).result = some none →
      ∀ cmd2 : Cmd,
        Rsync.command
          { Options := { r.Options with Stats := false },
            Info := (Info.Run sys1 { NewInfo with Cmd := some cmd1 }).info } dst src =
            some (some cmd2) →
        (Info.Run sys2
          { (Info.Run sys1 { NewInfo with Cmd := some cmd1 }).info with Cmd := some cmd2 }).result =
            some (some e) →
        (r.Copy sys1 sys2 dst src).result = some (some e) ∧
        (r.Copy sys1 sys2 dst src).built = [cmd1, cmd2] ∧
        (r.Copy sys1 sys2 dst src).rsync.Info =
          (Info.Run sys2
            { (Info.Run sys1 { NewInfo with Cmd := some cmd1 }).info with Cmd := some cmd2 }).info) := by
  constructor
  · intro hr1
    simp [Rsync.Copy, hc1, hr1]
  · intro hr1 cmd2 hc2 hr2
    simp [Rsync.Copy, hc1, hr1, hc2, hr2]

/-- C3 at the default options: a discovery run that fails after printing the
totals, and a transfer run that fails after a progress line of 120,324,096
bytes (the state keeps `Send = 3227789706`, not the total). -/
theorem Copy_failure_witness :
    ((Rsync.Copy (fun _ => statsRun (some "exit status 12")) (fun _ => quietRun)
        ⟨DefaultOptions, NewInfo⟩ "/c" ["/a/b"]).result = some (some "exit status 12") ∧
      (Rsync.Copy (fun _ => statsRun (some "exit status 12")) (fun _ => quietRun)
        ⟨DefaultOptions, NewInfo⟩ "/c" ["/a/b"]).built = [defaultDiscoveryCmd] ∧
      (Rsync.Copy (fun _ => statsRun (some "exit status 12")) (fun _ => quietRun)
        ⟨DefaultOptions, NewInfo⟩ "/c" ["/a/b"]).rsync.Info =
        (Info.Run (fun _ => statsRun (some "exit status 12"))
          { NewInfo with Cmd := some defaultDiscoveryCmd }).info) ∧
    ((Rsync.Copy (fun _ => statsRun none) (fun _ => progressRun (some "exit status 23"))
        ⟨DefaultOptions, NewInfo⟩ "/c" ["/a/b"]).result = some (some "exit status 23") ∧
      (Rsync.Copy (fun _ => statsRun none) (fun _ => progressRun (some "exit status 23"))
        ⟨DefaultOptions, NewInfo⟩ "/c" ["/a/b"]).built =
          [defaultDiscoveryCmd, defaultTransferCmd] ∧
      (Rsync.Copy (fun _ => statsRun none) (fun _ => progressRun (some "exit status 23"))
        ⟨DefaultOptions, NewInfo⟩ "/c" ["/a/b"]).rsync.Info =
        (Info.Run (fun _ => progressRun (some "exit status 23"))
          { (Info.Run (fun _ => statsRun none)
              { NewInfo with Cmd := some defaultDiscoveryCmd }).info with
            Cmd := some defaultTransferCmd }).info) ∧
    (Rsync.Copy (fun _ => statsRun none) (fun _ => progressRun (some "exit status 23"))
        ⟨DefaultOptions, NewInfo⟩ "/c" ["/a/b"]).rsync.Info.State.Send = 3227789706 ∧
    (Rsync.Copy (fun _ => statsRun none) (fun _ => progressRun (some "exit status 23"))
        ⟨DefaultOptions, NewInfo⟩ "/c" ["/a/b"]).rsync.Info.State.Total = 4662518418 :=
  ⟨(Copy_failure (fun _ => statsRun (some "exit status 12")) (fun _ => quietRun)
      ⟨DefaultOptions, NewInfo⟩ "/c" ["/a/b"] "exit status 12" defaultDiscoveryCmd
      (by decide)).1 (by decide),
    (Copy_failure (fun _ => statsRun none) (fun _ => progressRun (some "exit status 23"))
      ⟨DefaultOptions, NewInfo⟩ "/c" ["/a/b"] "exit status 23" defaultDiscoveryCmd
      (by decide)).2 (by decide) defaultTransferCmd (by decide) (by decide),
    by decide, by decide⟩

/-- C7 as stated fails: with the default options, sources `/a/b` and
destination `/c`, the discovery command that `Copy` builds contains
`--partial` next to `--dry-run` and `--stats`. -/
theorem Copy_default_discovery_has_partial :
    (Rsync.Copy (fun _ => quietRun) (fun _ => quietRun) ⟨DefaultOptions, NewInfo⟩
        "/c" ["/a/b"]).built.head? = some defaultDiscoveryCmd ∧
    "--dry-run" ∈ defaultDiscoveryCmd.Args ∧ "--stats" ∈ defaultDiscoveryCmd.Args ∧
    "--partial" ∈ defaultDiscoveryCmd.Args := by
  decide

/-- C7, as amended: with the default options, sources `/a/b` and destination
`/c`, `Copy` first builds the discovery command, which contains `--dry-run`,
`--stats` and `--partial`; when the discovery run succeeds it then builds the
transfer command, which contains `--partial` and neither `--dry-run` nor
`--stats`. -/
theorem Copy_default_commands (sys1 sys2 : Cmd → ProcRun) (info : Info) :
    ((Rsync.Copy sys1 sys2 ⟨DefaultOptions, info⟩ "/c" ["/a/b"]).built = [defaultDiscoveryCmd] ∨
      (Rsync.Copy sys1 sys2 ⟨DefaultOptions, info⟩ "/c" ["/a/b"]).built =
        [defaultDiscoveryCmd, defaultTransferCmd]) ∧
    ((sys1 defaultDiscoveryCmd).succeeds →
      (Rsync.Copy sys1 sys2 ⟨DefaultOptions, info⟩ "/c" ["/a/b"]).built =
        [defaultDiscoveryCmd, defaultTransferCmd]) ∧
    ("--dry-run" ∈ defaultDiscoveryCmd.Args ∧ "--stats" ∈ defaultDiscoveryCmd.Args ∧
      "--partial" ∈ defaultDiscoveryCmd.Args) ∧
    ("--partial" ∈ defaultTransferCmd.Args ∧ "--dry-run" ∉ defaultTransferCmd.Args ∧
      "--stats" ∉ defaultTransferCmd.Args) := by
  have hc1 : Rsync.command { Options := { DefaultOptions with Stats := true }, Info := NewInfo }
      "/c" ["/a/b"] = some (some defaultDiscoveryCmd) := by decide
  have hc2 : ∀ i : Info, Rsync.command
      { Options := { DefaultOptions with Stats := false }, Info := i }
      "/c" ["/a/b"] = some (some defaultTransferCmd) := fun _ => rfl
  have hbuilt : ∀ res : Option (Option String),
      (Info.Run sys1 { NewInfo with Cmd := some defaultDiscoveryCmd }).result = res →
      ((Rsync.Copy sys1 sys2 ⟨DefaultOptions, info⟩ "/c" ["/a/b"]).built =
          [defaultDiscoveryCmd] ∧ res ≠ some none) ∨
        (Rsync.Copy sys1 sys2 ⟨DefaultOptions, info⟩ "/c" ["/a/b"]).built =
          [defaultDiscoveryCmd, defaultTransferCmd] := by
    intro res hres
    rcases res with _ | _ | err
    · left
      simp [Rsync.Copy, hc1, hres]
    · right
      simp only [Rsync.Copy, hc1, hres, hc2]
      split <;> first | rfl | (split <;> rfl)
    · left
      simp [Rsync.Copy, hc1, hres]
  refine ⟨?_, ?_, by decide, by decide⟩
  · rcases hbuilt _ rfl with h | h
    · exact Or.inl h.1
    · exact Or.inr h
  · intro hs
    have hr := Run_succeeds sys1 { NewInfo with Cmd := some defaultDiscoveryCmd }
      defaultDiscoveryCmd rfl hs
    rcases hbuilt _ hr with h | h
    · exact absurd rfl h.2
    · exact h

/-- C7, as amended, at two runs that print nothing and succeed. -/
theorem Copy_default_commands_witness :
    (Rsync.Copy (fun _ => quietRun) (fun _ => quietRun) ⟨DefaultOptions, NewInfo⟩
        "/c" ["/a/b"]).built = [defaultDiscoveryCmd, defaultTransferCmd] :=
  (Copy_default_commands (fun _ => quietRun) (fun _ => quietRun) NewInfo).2.1 ⟨rfl, rfl, rfl⟩

/-! ## Claims about `matcher.Extract` -/

/-- With a match in the chunk and a negative index inside the `int` range,
`Extract` passes the length guard and faults on `matches[0][pos]`. -/
theorem Extract_negative_faults (m : matcher) (data : String) (pos : Int)
    (hm : m.Match data = true) (hneg : pos < 0) (hmin : -9223372036854775808 ≤ pos) :
    m.Extract data pos = none := by
  unfold matcher.Match Regexp.Match at hm
  unfold matcher.Extract Regexp.FindAllStringSubmatch1
  cases hs : m.regExp.search data.toList with
  | none =>
    rw [hs] at hm
    cases hm
  | some res =>
    have hw : wrapInt64 (pos + 1) = pos + 1 := wrapInt64_of_range _ (by omega) (by omega)
    have hlen : ¬ ((res.strings.length : Int) < pos + 1) := by omega
    simp only [hw, hlen, if_false, index?, hneg, if_true]

/-- C11 as stated fails: on the chunk `1 2%`, which the progress pattern
matches, the group index `-1` passes the guard
`len(matches[0]) < pos+1` and the index expression `matches[0][pos]` is out
of range; so does the index `2^63 - 1`, for which `pos+1` wraps around. The
in-range index 1 returns the capture group and the index 4 the empty
string. -/
theorem Extract_faults_on_negative_index :
    progressMatcher.Match "1 2%" = true ∧
    progressMatcher.Extract "1 2%" (-1) = none ∧
    progressMatcher.Extract "1 2%" 9223372036854775807 = none ∧
    progressMatcher.Extract "1 2%" 1 = some "1" ∧
    progressMatcher.Extract "1 2%" 4 = some "" := by
  decide

/-- C11, as amended: for every matcher, every chunk and every group index
`pos` with `0 ≤ pos < 2^63 - 1`, `Extract` does not fault. With no match it
returns the empty string; with a match it returns the capture group `pos` of
the first match when `pos` is in range, and the empty string when `pos` is
larger than the number of capture groups. -/
theorem Extract_nonnegative_index (m : matcher) (data : String) (pos : Int)
    (h0 : 0 ≤ pos) (hmax : pos < 9223372036854775807) :
    m.Extract data pos =
      some (match m.regExp.FindAllStringSubmatch1 data with
        | [] => ""
        | m0 :: _ => m0.getD pos.toNat "") := by
  have hw : wrapInt64 (pos + 1) = pos + 1 := wrapInt64_of_range _ (by omega) (by omega)
  unfold matcher.Extract
  cases m.regExp.FindAllStringSubmatch1 data with
  | nil => rfl
  | cons m0 rest =>
    have hneg : ¬ pos < 0 := by omega
    simp only [hw, index?, hneg, if_false]
    by_cases hlen : (m0.length : Int) < pos + 1
    · have hge : m0.length ≤ pos.toNat := by omega
      simp only [hlen, if_true, List.getD_eq_getElem?_getD, List.getElem?_eq_none hge,
        Option.getD_none]
    · have hlt : pos.toNat < m0.length := by omega
      simp only [hlen, if_false, List.getD_eq_getElem?_getD, List.get?_eq_getElem?,
        List.getElem?_eq_getElem hlt, Option.getD_some]

/-- C11, as amended, at the progress pattern on the line `120,324,096  11%`:
index 0 is the whole match, 1 the byte count, 3 the percentage, and 4 is
larger than the number of groups; and at a chunk with no match. -/
theorem Extract_nonnegative_index_witness :
    progressMatcher.Extract "120,324,096  11%" 0 = some "120,324,096  11%" ∧
    progressMatcher.Extract "120,324,096  11%" 1 = some "120,324,096" ∧
    progressMatcher.Extract "120,324,096  11%" 3 = some "11" ∧
    progressMatcher.Extract "120,324,096  11%" 4 = some "" ∧
    progressMatcher.Extract "sending incremental file list" 1 = some "" :=
  ⟨Extract_nonnegative_index progressMatcher _ 0 (by decide) (by decide),
    Extract_nonnegative_index progressMatcher _ 1 (by decide) (by decide),
    Extract_nonnegative_index progressMatcher _ 3 (by decide) (by decide),
    Extract_nonnegative_index progressMatcher _ 4 (by decide) (by decide),
    Extract_nonnegative_index progressMatcher _ 1 (by decide) (by decide)⟩

/-- C12: when the pattern has no match in the chunk, `Extract` returns the
empty string for every group index. -/
theorem Extract_no_match (m : matcher) (data : String) (pos : Int)
    (h : m.Match data = false) : m.Extract data pos = some "" := by
  unfold matcher.Match Regexp.Match at h
  unfold matcher.Extract Regexp.FindAllStringSubmatch1
  cases hs : m.regExp.search data.toList with
  | none => rfl
  | some res =>
    rw [hs] at h
    cases h

/-- C12 at the total-size pattern on a progress line, for the indices `-1`,
`0`, `1` and `7`. -/
theorem Extract_no_match_witness :
    totalMatcher.Extract "120,324,096  11%   57.38MB/s    0:00:15" (-1) = some "" ∧
    totalMatcher.Extract "120,324,096  11%   57.38MB/s    0:00:15" 0 = some "" ∧
    totalMatcher.Extract "120,324,096  11%   57.38MB/s    0:00:15" 1 = some "" ∧
    totalMatcher.Extract "120,324,096  11%   57.38MB/s    0:00:15" 7 = some "" :=
  ⟨Extract_no_match totalMatcher _ (-1) (by decide), Extract_no_match totalMatcher _ 0 (by decide),
    Extract_no_match totalMatcher _ 1 (by decide), Extract_no_match totalMatcher _ 7 (by decide)⟩

/-! ## Claims about the scanner state -/

theorem scanTrans_keeps_total (info i1 : Info) (logStr : String)
    (h : scanTrans info logStr = some i1) :
    i1.RsyncState.Total = info.RsyncState.Total ∧ i1.State = info.State := by
  obtain ⟨v, hv⟩ := Extract_one transMatcher logStr
  unfold scanTrans at h
  split at h
  · simp only [hv, Option.map_some', Option.some.injEq] at h
    subst h
    exact ⟨rfl, rfl⟩
  · simp only [Option.some.injEq] at h
    subst h
    exact ⟨rfl, rfl⟩

theorem scanProgress_zero_total (info : Info) (logStr : String)
    (h : info.RsyncState.Total = 0) : scanProgress info logStr = some info := by
  unfold scanProgress
  simp [h]

/-- C16: if `RsyncState.Total` is `0` after the total-size block of the loop
body has run on the chunk, the step of `processStdout` leaves `State.Send`,
`State.Total` and `State.Progress` as they were. -/
theorem processStdoutChunk_zero_total (info : Info) (logStr : String)
    (h : ∃ i1, scanTotal info logStr = some i1 ∧ i1.RsyncState.Total = 0) :
    ∃ info1, processStdoutChunk info logStr = some info1 ∧
      info1.State.Send = info.State.Send ∧ info1.State.Total = info.State.Total ∧
      info1.State.Progress = info.State.Progress := by
  obtain ⟨i1, h1, hz⟩ := h
  obtain ⟨i1b, h1b, hst1⟩ := scanTotal_some info logStr
  rw [h1] at h1b
  cases h1b
  obtain ⟨i2, h2, _⟩ := scanTrans_some i1 logStr
  obtain ⟨ht2, hst2⟩ := scanTrans_keeps_total i1 i2 logStr h2
  have h3 := scanProgress_zero_total i2 logStr (by rw [ht2, hz])
  obtain ⟨i4, h4, _, hS, hT, hP⟩ := scanSpeed_some i2 logStr
  refine ⟨{ i4 with Log := { i4.Log with Stdout := i4.Log.Stdout ++ logStr } }, ?_, ?_, ?_, ?_⟩
  · simp only [processStdoutChunk, h1, h2, h3, h4, Option.some_bind, Option.map_some']
  · show i4.State.Send = info.State.Send
    rw [hS, hst2, hst1]
  · show i4.State.Total = info.State.Total
    rw [hT, hst2, hst1]
  · show i4.State.Progress = info.State.Progress
    rw [hP, hst2, hst1]

/-- C16 at a fresh `Info` and at a state with an earlier report, on a chunk
with a progress line, and on a chunk whose total-size line announces `0`. -/
theorem processStdoutChunk_zero_total_witness :
    (∃ info1, processStdoutChunk NewInfo "120,324,096  11%   57.38MB/s    0:00:15" =
        some info1 ∧
      info1.State.Send = 0 ∧ info1.State.Total = 0 ∧ info1.State.Progress = 0) ∧
    (∃ info1, processStdoutChunk ⟨none, ⟨7, 3⟩, ⟨5, 7, "", 70⟩, ⟨"", ""⟩⟩
        "Total file size: 0 bytes\n10 50%" = some info1 ∧
      info1.State.Send = 5 ∧ info1.State.Total = 7 ∧ info1.State.Progress = 70) :=
  ⟨processStdoutChunk_zero_total NewInfo "120,324,096  11%   57.38MB/s    0:00:15"
      ⟨NewInfo, by decide, by decide⟩,
    processStdoutChunk_zero_total ⟨none, ⟨7, 3⟩, ⟨5, 7, "", 70⟩, ⟨"", ""⟩⟩
      "Total file size: 0 bytes\n10 50%"
      ⟨⟨none, ⟨0, 3⟩, ⟨5, 7, "", 70⟩, ⟨"", ""⟩⟩, by decide, by decide⟩⟩

/-! ## Claims about `Rsync.Copy` on invalid input -/

theorem command_invalid (r : Rsync) (dst : String) (src : List String)
    (h : src = [] ∨ dst = "" ∨ (r.Options.RemoteShell ≠ "" ∧ r.Options.RemoteHost = "")) :
    r.command dst src = some none := by
  obtain ⟨e, he⟩ := GetArgs_invalid r.Options dst src h
  simp [Rsync.command, he]

/-- With zero sources or an empty destination `Copy` builds no command and
stops with a runtime fault in the first `Run`. -/
theorem Copy_invalid_faults (sys1 sys2 : Cmd → ProcRun) (r : Rsync) (dst : String)
    (src : List String) (h : src = [] ∨ dst = "") :
    (r.Copy sys1 sys2 dst src).result = none ∧ (r.Copy sys1 sys2 dst src).built = [] := by
  have hbad : src = [] ∨ dst = "" ∨
      (r.Options.RemoteShell ≠ "" ∧ r.Options.RemoteHost = "") := by
    rcases h with h | h
    · exact Or.inl h
    · exact Or.inr (Or.inl h)
  have hc := command_invalid
    { Options := { r.Options with Stats := true }, Info := NewInfo } dst src hbad
  simp only [Rsync.Copy, hc]
  simp [Info.Run]

/-- C13: `Copy` with zero sources, and `Copy` with an empty destination, do
not return a validation error: `GetArgs` reports `no source given` or
`no destination given`, `command` drops the error and returns `nil`, and
`Info.Run` faults on the `nil` command. No command is built. -/
theorem Copy_without_source_or_destination :
    DefaultOptions.GetArgs "/c" [] = .error "no source given" ∧
    (Rsync.Copy (fun _ => quietRun) (fun _ => quietRun) ⟨DefaultOptions, NewInfo⟩
      "/c" []).result = none ∧
    (Rsync.Copy (fun _ => quietRun) (fun _ => quietRun) ⟨DefaultOptions, NewInfo⟩
      "/c" []).built = [] ∧
    DefaultOptions.GetArgs "" ["/a/b"] = .error "no destination given" ∧
    (Rsync.Copy (fun _ => quietRun) (fun _ => quietRun) ⟨DefaultOptions, NewInfo⟩
      "" ["/a/b"]).result = none ∧
    (Rsync.Copy (fun _ => quietRun) (fun _ => quietRun) ⟨DefaultOptions, NewInfo⟩
      "" ["/a/b"]).built = [] := by
  decide

/-! ## Claims about the percentage while the total is unknown -/

theorem scanProgress_keeps_unknown (info i1 : Info) (logStr : String)
    (h : scanProgress info logStr = some i1) (hinv : ProgressUnknown info) :
    ProgressUnknown i1 := by
  obtain ⟨v, hv⟩ := Extract_one progressMatcher logStr
  unfold scanProgress at h
  split at h
  · rename_i hcond
    simp only [hv, Option.map_some', Option.some.injEq] at h
    subst h
    intro hz
    have hz2 : info.RsyncState.Total = 0 := hz
    have hpos := hcond.2
    omega
  · simp only [Option.some.injEq] at h
    subst h
    exact hinv

theorem processStdoutChunk_keeps_unknown (info : Info) (logStr : String)
    (hinv : ProgressUnknown info) :
    ∃ info1, processStdoutChunk info logStr = some info1 ∧ ProgressUnknown info1 := by
  obtain ⟨i1, h1, hs1⟩ := scanTotal_some info logStr
  obtain ⟨i2, h2, hs2⟩ := scanTrans_some i1 logStr
  obtain ⟨i3, h3, _⟩ := scanProgress_some i2 logStr
  obtain ⟨i4, h4, _, _, hT, hP⟩ := scanSpeed_some i3 logStr
  have hinv2 : ProgressUnknown i2 := by
    unfold ProgressUnknown
    rw [hs2, hs1]
    exact hinv
  have hinv3 := scanProgress_keeps_unknown i2 i3 logStr h3 hinv2
  refine ⟨{ i4 with Log := { i4.Log with Stdout := i4.Log.Stdout ++ logStr } }, ?_, ?_⟩
  · simp only [processStdoutChunk, h1, h2, h3, h4, Option.some_bind, Option.map_some']
  · show i4.State.Total = 0 → i4.State.Progress = 0
    rw [hT, hP]
    exact hinv3

theorem processStdout_keeps_unknown (info : Info) (chunks : List String)
    (hinv : ProgressUnknown info) :
    ∃ info1, processStdout info chunks = some info1 ∧ ProgressUnknown info1 := by
  induction chunks generalizing info with
  | nil => exact ⟨info, rfl, hinv⟩
  | cons chunk rest ih =>
    unfold processStdout
    by_cases hlen : chunk.length > 0
    · obtain ⟨i1, h1, hi1⟩ := processStdoutChunk_keeps_unknown info chunk hinv
      simp only [hlen, if_true, h1]
      exact ih i1 hi1
    · simp only [hlen, if_false]
      exact ih info hinv

theorem processStderr_state (info : Info) (chunks : List String) :
    (processStderr info chunks).State = info.State := by
  induction chunks generalizing info with
  | nil => rfl
  | cons chunk rest ih =>
    unfold processStderr
    rw [ih]
    split <;> rfl

theorem Run_keeps_unknown (sys : Cmd → ProcRun) (info : Info) (hinv : ProgressUnknown info) :
    ProgressUnknown (Info.Run sys info).info := by
  unfold Info.Run
  split
  · exact hinv
  · rename_i cmd _
    split
    · exact hinv
    · split
      · exact hinv
      · obtain ⟨i1, h1, hi1⟩ := processStdout_keeps_unknown info (sys cmd).stdout hinv
        simp only [h1]
        unfold ProgressUnknown
        rw [processStderr_state]
        exact hi1

/-- Steps that land after `State.Send = State.Total` was written keep
`State.Send = 0` where `State.Total = 0`. -/
theorem applyLate_send_total (info info1 : Info) (steps : List ScanStep)
    (h : applyLate info steps = some info1) (hA : info.State.Send = info.State.Total) :
    info1.State.Total = 0 → info1.State.Send = 0 := by
  obtain ⟨i, hi, hK⟩ := applyLate_zero_total (fun s _ => s = 0) info steps
    (fun hz => hA.trans hz)
  rw [h] at hi
  cases hi
  exact hK

/-- What `Copy` leaves behind when it returns: after a `nil` return the
forced percentage where no total is known, in every other case a state that
the scanners built from a fresh `Info`. -/
theorem Copy_final_state (sys1 sys2 : Cmd → ProcRun) (r : Rsync) (dst : String)
    (src : List String) :
    ((r.Copy sys1 sys2 dst src).result = some none ∧
      ((r.Copy sys1 sys2 dst src).rsync.Info.State.Total = 0 →
        (r.Copy sys1 sys2 dst src).rsync.Info.State.Progress = 100 ∧
        (r.Copy sys1 sys2 dst src).rsync.Info.State.Send =
          (r.Copy sys1 sys2 dst src).rsync.Info.State.Total)) ∨
    ((r.Copy sys1 sys2 dst src).result ≠ some none ∧
      ProgressUnknown (r.Copy sys1 sys2 dst src).rsync.Info) := by
  have h0 : ProgressUnknown NewInfo := fun _ => rfl
  have hrun1 : ∀ c : Option Cmd,
      ProgressUnknown (Info.Run sys1 { NewInfo with Cmd := c }).info :=
    fun c => Run_keeps_unknown sys1 _ (fun _ => rfl)
  have hrun2 : ∀ c1 c2 : Option Cmd, ProgressUnknown (Info.Run sys2
      { (Info.Run sys1 { NewInfo with Cmd := c1 }).info with Cmd := c2 }).info :=
    fun c1 c2 => Run_keeps_unknown sys2 _ (hrun1 c1)
  simp only [Rsync.Copy]
  split
  · exact Or.inr ⟨by simp, h0⟩
  · rename_i cmd1 _
    split
    · exact Or.inr ⟨by simp, hrun1 cmd1⟩
    · exact Or.inr ⟨by simp, hrun1 cmd1⟩
    · split
      · exact Or.inr ⟨by simp, hrun1 cmd1⟩
      · rename_i cmd2 _
        split
        · exact Or.inr ⟨by simp, hrun2 cmd1 cmd2⟩
        · exact Or.inr ⟨by simp, hrun2 cmd1 cmd2⟩
        · split
          · exact Or.inr ⟨by simp, hrun2 cmd1 cmd2⟩
          · rename_i info3 h3
            have hK := applyLate_send_total _ _ _ h3 rfl
            refine Or.inl ⟨rfl, fun hz => ⟨rfl, ?_⟩⟩
            show info3.State.Send = info3.State.Total
            have hz2 : info3.State.Total = 0 := hz
            rw [hz2]
            exact hK hz2

/-- The steps that land after `Copy` returned keep every fact of the form
`State.Total = 0 → P State.Send State.Progress`. -/
theorem settled_zero_total (P : Int → ℚ → Prop) (res : CopyResult)
    (h : res.rsync.Info.State.Total = 0 →
      P res.rsync.Info.State.Send res.rsync.Info.State.Progress) :
    ∃ info1, res.settled = some info1 ∧
      (info1.State.Total = 0 → P info1.State.Send info1.State.Progress) :=
  applyLate_zero_total P _ _ h

/-- C17 as stated fails: with a discovery run that prints nothing and a
transfer run that prints a progress line, no total is ever parsed, `Copy`
returns `nil`, and the final state has `State.Total = 0` with
`State.Progress = 100`. -/
theorem Copy_forces_progress_without_total :
    (Rsync.Copy (fun _ => quietRun) (fun _ => progressRun none) ⟨DefaultOptions, NewInfo⟩
      "/c" ["/a/b"]).result = some none ∧
    (Rsync.Copy (fun _ => quietRun) (fun _ => progressRun none) ⟨DefaultOptions, NewInfo⟩
      "/c" ["/a/b"]).rsync.Info.RsyncState.Total = 0 ∧
    (Rsync.Copy (fun _ => quietRun) (fun _ => progressRun none) ⟨DefaultOptions, NewInfo⟩
      "/c" ["/a/b"]).rsync.Info.State.Total = 0 ∧
    (Rsync.Copy (fun _ => quietRun) (fun _ => progressRun none) ⟨DefaultOptions, NewInfo⟩
      "/c" ["/a/b"]).rsync.Info.State.Progress = 100 := by
  decide

/-- C17, as amended: a fresh `Info` has `State.Total = 0` and
`State.Progress = 0`; the scanner steps keep `State.Total = 0` implying
`State.Progress = 0`, so this holds in every state they reach, in the state
a `Copy` leaves when it does not return `nil`, and after the steps the
scanners make later; after a `Copy` that returns `nil`, `State.Total = 0`
implies `State.Progress = 100` and `State.Send = State.Total`, at the return
and after the steps the scanners make later. -/
theorem progress_unknown_until_finalization (sys1 sys2 : Cmd → ProcRun) (r : Rsync)
    (dst : String) (src : List String) (info : Info) (chunks : List String) :
    ProgressUnknown NewInfo ∧
    (ProgressUnknown info →
      ∃ info1, processStdout info chunks = some info1 ∧ ProgressUnknown info1) ∧
    ((r.Copy sys1 sys2 dst src).result ≠ some none →
      ProgressUnknown (r.Copy sys1 sys2 dst src).rsync.Info ∧
      ∃ info1, (r.Copy sys1 sys2 dst src).settled = some info1 ∧ ProgressUnknown info1) ∧
    ((r.Copy sys1 sys2 dst src).result = some none →
      ((r.Copy sys1 sys2 dst src).rsync.Info.State.Total = 0 →
        (r.Copy sys1 sys2 dst src).rsync.Info.State.Progress = 100 ∧
        (r.Copy sys1 sys2 dst src).rsync.Info.State.Send =
          (r.Copy sys1 sys2 dst src).rsync.Info.State.Total) ∧
      ∃ info1, (r.Copy sys1 sys2 dst src).settled = some info1 ∧
        (info1.State.Total = 0 →
          info1.State.Progress = 100 ∧ info1.State.Send = info1.State.Total)) := by
  refine ⟨fun _ => rfl, processStdout_keeps_unknown info chunks, ?_, ?_⟩
  · intro hne
    rcases Copy_final_state sys1 sys2 r dst src with h | h
    · exact absurd h.1 hne
    · exact ⟨h.2, settled_zero_total (fun _ p => p = 0) _ h.2⟩
  · intro hnil
    rcases Copy_final_state sys1 sys2 r dst src with h | h
    · refine ⟨h.2, ?_⟩
      obtain ⟨i1, hi1, hK⟩ := settled_zero_total (fun s p => p = 100 ∧ s = 0) _
        (fun hz => ⟨(h.2 hz).1, ((h.2 hz).2).trans hz⟩)
      exact ⟨i1, hi1, fun hz => ⟨(hK hz).1, ((hK hz).2).trans hz.symm⟩⟩
    · exact absurd hnil h.1

/-- C17, as amended, at a transfer run that fails after a progress line with
no total parsed (the percentage stays `0`), and at the same run succeeding
(the percentage is forced to `100`). -/
theorem progress_unknown_until_finalization_witness :
    (∃ info1, processStdout NewInfo ["120,324,096  11%   57.38MB/s    0:00:15"] = some info1 ∧
      ProgressUnknown info1) ∧
    ProgressUnknown (Rsync.Copy (fun _ => quietRun) (fun _ => progressRun (some "exit status 23"))
      ⟨DefaultOptions, NewInfo⟩ "/c" ["/a/b"]).rsync.Info ∧
    (Rsync.Copy (fun _ => quietRun) (fun _ => progressRun (some "exit status 23"))
      ⟨DefaultOptions, NewInfo⟩ "/c" ["/a/b"]).rsync.Info.State.Progress = 0 ∧
    ((Rsync.Copy (fun _ => quietRun) (fun _ => progressRun none)
        ⟨DefaultOptions, NewInfo⟩ "/c" ["/a/b"]).rsync.Info.State.Progress = 100 ∧
      (Rsync.Copy (fun _ => quietRun) (fun _ => progressRun none)
        ⟨DefaultOptions, NewInfo⟩ "/c" ["/a/b"]).rsync.Info.State.Send =
      (Rsync.Copy (fun _ => quietRun) (fun _ => progressRun none)
        ⟨DefaultOptions, NewInfo⟩ "/c" ["/a/b"]).rsync.Info.State.Total) ∧
    (∃ info1, (Rsync.Copy (fun _ => quietRun) (fun _ => lateRun)
        ⟨DefaultOptions, NewInfo⟩ "/c" ["/a/b"]).settled = some info1 ∧
      (info1.State.Total = 0 →
        info1.State.Progress = 100 ∧ info1.State.Send = info1.State.Total)) :=
  ⟨(progress_unknown_until_finalization (fun _ => quietRun) (fun _ => quietRun)
      ⟨DefaultOptions, NewInfo⟩ "/c" ["/a/b"] NewInfo
      ["120,324,096  11%   57.38MB/s    0:00:15"]).2.1 (fun _ => rfl),
    ((progress_unknown_until_finalization (fun _ => quietRun)
      (fun _ => progressRun (some "exit status 23")) ⟨DefaultOptions, NewInfo⟩ "/c" ["/a/b"]
      NewInfo []).2.2.1 (by decide)).1,
    by decide,
    ((progress_unknown_until_finalization (fun _ => quietRun) (fun _ => progressRun none)
      ⟨DefaultOptions, NewInfo⟩ "/c" ["/a/b"] NewInfo []).2.2.2 (by decide)).1 (by decide),
    ((progress_unknown_until_finalization (fun _ => quietRun) (fun _ => lateRun)
      ⟨DefaultOptions, NewInfo⟩ "/c" ["/a/b"] NewInfo []).2.2.2 (by decide)).2⟩

/-! ## Claims about the order of the reported byte counts -/

/-- The progress block with a positive total: `Send` is the byte count of the
progress line plus `Total - Trans`. -/
theorem scanProgress_send (info : Info) (logStr : String)
    (hT : 0 < info.RsyncState.Total)
    (hprog : progressMatcher.Match logStr = true)
    (hfit : progressCount logStr ≤ 9223372036854775807)
    (hpart : -9223372036854775808 ≤ info.RsyncState.Total - info.RsyncState.Trans ∧
      info.RsyncState.Total - info.RsyncState.Trans ≤ 9223372036854775807)
    (hsend : -9223372036854775808 ≤
        (progressCount logStr : Int) + (info.RsyncState.Total - info.RsyncState.Trans) ∧
      (progressCount logStr : Int) + (info.RsyncState.Total - info.RsyncState.Trans) ≤
        9223372036854775807) :
    ∃ i3, scanProgress info logStr = some i3 ∧ i3.RsyncState = info.RsyncState ∧
      i3.State.Send =
        (progressCount logStr : Int) + (info.RsyncState.Total - info.RsyncState.Trans) := by
  obtain ⟨groups, hne, hdig, hcap⟩ := progress_Extract_grouped logStr hprog
  have hcount : progressCount logStr = decimalValue groups.flatten := by
    have hrm := removeCommas_joinGroups groups (fun g hg => (hdig g hg).2)
    simp only [removeCommas] at hrm
    simp only [progressCount, hcap, String.toList, hrm]
  rw [hcount] at hfit hsend ⊢
  have hconv : convertBytesNum (String.mk (joinGroups groups)) =
      (decimalValue groups.flatten : Int) := by
    unfold convertBytesNum
    simp only [String.toList]
    rw [parseInt_joinGroups groups hne hdig]
    simp [hfit]
  have hw1 := wrapInt64_of_range _ hpart.1 hpart.2
  have hw2 := wrapInt64_of_range _ hsend.1 hsend.2
  simp only [scanProgress, hprog, hT, gt_iff_lt, and_self, if_true, hcap, Option.map_some',
    hconv, hw1, hw2]
  exact ⟨_, rfl, rfl, rfl⟩

/-- One step on a chunk with a progress line and no total-size or
transferred-size line, in a state with a positive total. -/
theorem progress_step_send (info : Info) (logStr : String)
    (hT : 0 < info.RsyncState.Total)
    (hprog : progressMatcher.Match logStr = true)
    (htot : totalMatcher.Match logStr = false)
    (htrans : transMatcher.Match logStr = false)
    (hfit : progressCount logStr ≤ 9223372036854775807)
    (hpart : -9223372036854775808 ≤ info.RsyncState.Total - info.RsyncState.Trans ∧
      info.RsyncState.Total - info.RsyncState.Trans ≤ 9223372036854775807)
    (hsend : -9223372036854775808 ≤
        (progressCount logStr : Int) + (info.RsyncState.Total - info.RsyncState.Trans) ∧
      (progressCount logStr : Int) + (info.RsyncState.Total - info.RsyncState.Trans) ≤
        9223372036854775807) :
    ∃ info1, processStdoutChunk info logStr = some info1 ∧
      info1.RsyncState = info.RsyncState ∧
      info1.State.Send =
        (progressCount logStr : Int) + (info.RsyncState.Total - info.RsyncState.Trans) := by
  have h1 : scanTotal info logStr = some info := by simp [scanTotal, htot]
  have h2 : scanTrans info logStr = some info := by simp [scanTrans, htrans]
  obtain ⟨i3, h3, hr3, hs3⟩ := scanProgress_send info logStr hT hprog hfit hpart hsend
  obtain ⟨i4, h4, hr4, hS, _, _⟩ := scanSpeed_some i3 logStr
  refine ⟨{ i4 with Log := { i4.Log with Stdout := i4.Log.Stdout ++ logStr } }, ?_, ?_, ?_⟩
  · simp only [processStdoutChunk, h1, h2, h3, h4, Option.some_bind, Option.map_some']
  · show i4.RsyncState = info.RsyncState
    rw [hr4, hr3]
  · show i4.State.Send = _
    rw [hS, hs3]

/-- A chunk with no progress line leaves `State.Send` as it was. -/
theorem no_progress_step_send (info : Info) (logStr : String)
    (hprog : progressMatcher.Match logStr = false) :
    ∃ info1, processStdoutChunk info logStr = some info1 ∧
      info1.State.Send = info.State.Send := by
  obtain ⟨i1, h1, hs1⟩ := scanTotal_some info logStr
  obtain ⟨i2, h2, hs2⟩ := scanTrans_some i1 logStr
  have h3 : scanProgress i2 logStr = some i2 := by simp [scanProgress, hprog]
  obtain ⟨i4, h4, _, hS, _, _⟩ := scanSpeed_some i2 logStr
  refine ⟨{ i4 with Log := { i4.Log with Stdout := i4.Log.Stdout ++ logStr } }, ?_, ?_⟩
  · simp only [processStdoutChunk, h1, h2, h3, h4, Option.some_bind, Option.map_some']
  · show i4.State.Send = info.State.Send
    rw [hS, hs2, hs1]

/-- C14 as stated fails: after the discovery totals, a read that ends inside
the byte count of a progress line gives `Send = 3168872842`, and the next
read, which starts with the rest of that byte count, gives
`Send = 3107489706`. -/
theorem Send_decreases_at_split_progress_line :
    (processStdout NewInfo
      ["Total file size: 4,662,518,418 bytes\nTotal transferred file size: 1,555,052,808 bytes\n",
        "     61,407,232   5%   58.56MB/s    0:00:16\r    120,3"]).map
      (fun i => i.State.Send) = some 3168872842 ∧
    (processStdout NewInfo
      ["Total file size: 4,662,518,418 bytes\nTotal transferred file size: 1,555,052,808 bytes\n",
        "     61,407,232   5%   58.56MB/s    0:00:16\r    120,3",
        "24,096  11%   57.38MB/s    0:00:15"]).map
      (fun i => i.State.Send) = some 3107489706 := by
  decide

/-- C14, as amended: a chunk with no progress line leaves `State.Send`
unchanged; and for two chunks `a`, `b` with a progress line and no
total-size or transferred-size line, processed one after the other in a
state with totals `T > 0` and `R` (all values in the `int64` range),
`State.Send` after `b` is at least `State.Send` after `a` exactly when the
byte count of the first progress line of `b` is at least that of `a`. -/
theorem Send_follows_progress_count (info : Info) (a b : String)
    (hT : 0 < info.RsyncState.Total)
    (hpart : -9223372036854775808 ≤ info.RsyncState.Total - info.RsyncState.Trans ∧
      info.RsyncState.Total - info.RsyncState.Trans ≤ 9223372036854775807)
    (ha : progressMatcher.Match a = true ∧ totalMatcher.Match a = false ∧
      transMatcher.Match a = false ∧ progressCount a ≤ 9223372036854775807 ∧
      -9223372036854775808 ≤
        (progressCount a : Int) + (info.RsyncState.Total - info.RsyncState.Trans) ∧
      (progressCount a : Int) + (info.RsyncState.Total - info.RsyncState.Trans) ≤
        9223372036854775807)
    (hb : progressMatcher.Match b = true ∧ totalMatcher.Match b = false ∧
      transMatcher.Match b = false ∧ progressCount b ≤ 9223372036854775807 ∧
      -9223372036854775808 ≤
        (progressCount b : Int) + (info.RsyncState.Total - info.RsyncState.Trans) ∧
      (progressCount b : Int) + (info.RsyncState.Total - info.RsyncState.Trans) ≤
        9223372036854775807) :
    (∃ ia ib, processStdoutChunk info a = some ia ∧ processStdoutChunk ia b = some ib ∧
      (ia.State.Send ≤ ib.State.Send ↔ progressCount a ≤ progressCount b)) ∧
    (∀ (i : Info) (chunk : String), progressMatcher.Match chunk = false →
      ∃ i1, processStdoutChunk i chunk = some i1 ∧ i1.State.Send = i.State.Send) := by
  refine ⟨?_, fun i chunk h => no_progress_step_send i chunk h⟩
  obtain ⟨ha1, ha2, ha3, ha4, ha5, ha6⟩ := ha
  obtain ⟨hb1, hb2, hb3, hb4, hb5, hb6⟩ := hb
  obtain ⟨ia, hia, hra, hsa⟩ :=
    progress_step_send info a hT ha1 ha2 ha3 ha4 hpart ⟨ha5, ha6⟩
  obtain ⟨ib, hib, _, hsb⟩ := progress_step_send ia b (by rw [hra]; exact hT) hb1 hb2 hb3 hb4
    (by rw [hra]; exact hpart) (by rw [hra]; exact ⟨hb5, hb6⟩)
  refine ⟨ia, ib, hia, hib, ?_⟩
  rw [hsa, hsb, hra]
  omega

/-- C14, as amended, at the totals `4662518418`, `1555052808` and two whole
progress lines of 61,407,232 and 120,324,096 bytes. -/
theorem Send_follows_progress_count_witness :
    (∃ ia ib,
      processStdoutChunk ⟨none, ⟨4662518418, 1555052808⟩, ⟨0, 0, "", 0⟩, ⟨"", ""⟩⟩
        "61,407,232   5%   58.56MB/s    0:00:16" = some ia ∧
      processStdoutChunk ia "120,324,096  11%   57.38MB/s    0:00:15" = some ib ∧
      (ia.State.Send ≤ ib.State.Send ↔
        progressCount "61,407,232   5%   58.56MB/s    0:00:16" ≤
          progressCount "120,324,096  11%   57.38MB/s    0:00:15")) ∧
    progressCount "61,407,232   5%   58.56MB/s    0:00:16" = 61407232 ∧
    progressCount "120,324,096  11%   57.38MB/s    0:00:15" = 120324096 :=
  ⟨(Send_follows_progress_count ⟨none, ⟨4662518418, 1555052808⟩, ⟨0, 0, "", 0⟩, ⟨"", ""⟩⟩
      "61,407,232   5%   58.56MB/s    0:00:16" "120,324,096  11%   57.38MB/s    0:00:15"
      (by decide) (by decide) (by decide) (by decide)).1,
    by decide, by decide⟩

/-! ## Claims about `NewRsync` and `SSH.Shell` -/

theorem ite_append_right (p : Prop) [Decidable p] (cmd x : List String) :
    (if p then cmd ++ x else cmd) = cmd ++ (if p then x else []) := by
  split <;> simp

theorem foldl_ssh_options (xs : List String) (cmd : List String) :
    xs.foldl (fun acc o => acc ++ ["-o", o]) cmd =
      cmd ++ xs.foldl (fun acc o => acc ++ ["-o", o]) [] := by
  induction xs generalizing cmd with
  | nil => simp
  | cons x rest ih =>
    simp only [List.foldl_cons]
    rw [ih (cmd ++ ["-o", x]), ih ([] ++ ["-o", x])]
    simp

/-- The command of `SSH.Command` starts with `ssh` or `sshpass` and has at
least one more element. -/
theorem Command_head (s : SSH) :
    ∃ h t, s.Command [] = h :: t ∧ t ≠ [] ∧ (h = "ssh" ∨ h = "sshpass") := by
  unfold SSH.Command
  simp only [ite_append_right, List.length_nil, gt_iff_lt, lt_self_iff_false, if_false]
  rw [foldl_ssh_options]
  by_cases hp : s.Password = ""
  · simp only [hp, if_false]
    exact ⟨"ssh", _, rfl, by simp, Or.inl rfl⟩
  · simp only [ne_eq, hp, not_false_eq_true, if_true]
    exact ⟨"sshpass", _, rfl, by simp, Or.inr rfl⟩

theorem foldl_quote (xs : List String) (acc : List String) :
    xs.foldl (fun acc i => acc ++ ["'" ++ i ++ "'"]) acc =
      acc ++ xs.map (fun i => "'" ++ i ++ "'") := by
  induction xs generalizing acc with
  | nil => simp
  | cons x rest ih => simp [ih]

theorem stringsJoin_length (sep a : String) (rest : List String) :
    a.length ≤ (stringsJoin sep (a :: rest)).length := by
  cases rest with
  | nil => simp [stringsJoin]
  | cons b more =>
    simp only [stringsJoin, String.length_append]
    omega

/-- `SSH.Shell` never returns the empty string. -/
theorem Shell_ne_empty (s : SSH) : s.Shell ≠ "" := by
  obtain ⟨h, t, hcmd, ht, _⟩ := Command_head s
  unfold SSH.Shell
  simp only [hcmd, foldl_quote, List.nil_append]
  obtain ⟨t1, tl, rfl⟩ := List.exists_cons_of_ne_nil ht
  simp only [List.dropLast_cons₂, List.map_cons]
  intro hshell
  have hlen := stringsJoin_length " " ("'" ++ h ++ "'")
    (List.map (fun i => "'" ++ i ++ "'") (t1 :: tl).dropLast)
  rw [hshell] at hlen
  simp only [String.length_append] at hlen
  have h1 : "'".length = 1 := by decide
  have h0 : "".length = 0 := by decide
  omega

theorem NewRsync_options (opt : Option Options) (s : SSH) :
    (NewRsync opt s).1.Options.RemoteShell = s.Shell ∧
    (NewRsync opt s).1.Options.RemoteHost = s.Host ∧ (NewRsync opt s).2 = none := by
  cases opt <;> exact ⟨rfl, rfl, rfl⟩

/-- C20: the options of the `Rsync` that `NewRsync` returns have the remote
shell `s.Shell`, which is never empty, and the remote host `s.Host`; so for
a non-empty destination and at least one source `GetArgs` on them succeeds
exactly when `s.Host` is non-empty, and every list it returns ends with
`s.Host:dst` and contains `--rsh` followed by the shell: no local invocation
comes out of `NewRsync`. -/
theorem NewRsync_remote (opt : Option Options) (s : SSH) (dst : String) (src : List String)
    (hdst : dst ≠ "") (hsrc : src ≠ []) :
    (NewRsync opt s).1.Options.RemoteShell ≠ "" ∧
    ((∃ args, (NewRsync opt s).1.Options.GetArgs dst src = .ok args) ↔ s.Host ≠ "") ∧
    (∀ args, (NewRsync opt s).1.Options.GetArgs dst src = .ok args →
      args.getLast? = some (s.Host ++ ":" ++ dst) ∧
      ∃ pre post, args = pre ++ "--rsh" :: s.Shell :: post) := by
  obtain ⟨hshell, hhost, _⟩ := NewRsync_options opt s
  have hne : (NewRsync opt s).1.Options.RemoteShell ≠ "" := by
    rw [hshell]
    exact Shell_ne_empty s
  refine ⟨hne, ⟨?_, ?_⟩, ?_⟩
  · rintro ⟨args, hargs⟩
    have hv := (GetArgs_ok_valid _ dst src args hargs).2.2 hne
    rw [hhost] at hv
    exact hv
  · intro hh
    exact ⟨_, GetArgs_valid _ dst src hsrc hdst (fun _ => by rw [hhost]; exact hh)⟩
  · intro args hargs
    have hshape := GetArgs_ok_shape _ dst src args hargs
    have hrsh : rshPair (NewRsync opt s).1.Options = ["--rsh", s.Shell] := by
      unfold rshPair
      rw [if_pos hne, hshell]
    have hd : dstArg (NewRsync opt s).1.Options dst = s.Host ++ ":" ++ dst := by
      unfold dstArg
      rw [if_pos hne, hhost]
    rw [hrsh, hd] at hshape
    constructor
    · have h := getLast?_append_singleton
        ("rsync" :: (flagsOf (NewRsync opt s).1.Options ++
          excludeBlock (NewRsync opt s).1.Options.Exclude ++ ["--rsh", s.Shell] ++
          (NewRsync opt s).1.Options.Additional ++ src)) (s.Host ++ ":" ++ dst)
      rw [hshape]
      simpa using h
    · refine ⟨"rsync" :: (flagsOf (NewRsync opt s).1.Options ++
          excludeBlock (NewRsync opt s).1.Options.Exclude),
        (NewRsync opt s).1.Options.Additional ++ src ++ [s.Host ++ ":" ++ dst], ?_⟩
      rw [hshape]
      simp

/-- C20 at `sampleSSH` (host `backup`) with no options given, and at the
zero `SSH` value, whose empty host makes `GetArgs` fail. -/
theorem NewRsync_remote_witness :
    (NewRsync none sampleSSH).1.Options.GetArgs "/c" ["/a/b"] =
      .ok ["rsync", "--archive", "--compress", "--info=progress2", "--no-i-r", "--partial",
        "--rsh",
        "'sshpass' '-p' 'secret' 'ssh' '-T' '-l' 'root' '-p' '2222' '-o' 'StrictHostKeyChecking=no'",
        "/a/b", "backup:/c"] ∧
    ((NewRsync none sampleSSH).1.Options.RemoteShell ≠ "" ∧
      ((∃ args, (NewRsync none sampleSSH).1.Options.GetArgs "/c" ["/a/b"] = .ok args) ↔
        sampleSSH.Host ≠ "") ∧
      (∀ args, (NewRsync none sampleSSH).1.Options.GetArgs "/c" ["/a/b"] = .ok args →
        args.getLast? = some (sampleSSH.Host ++ ":" ++ "/c") ∧
        ∃ pre post, args = pre ++ "--rsh" :: sampleSSH.Shell :: post)) ∧
    (NewRsync none emptySSH).1.Options.RemoteShell = "'ssh'" ∧
    (NewRsync none emptySSH).1.Options.GetArgs "/c" ["/a/b"] = .error "no remote host given" :=
  ⟨by decide, NewRsync_remote none sampleSSH "/c" ["/a/b"] (by decide) (by decide),
    by decide, by decide⟩

/-! ## Claims about `NewSSH` -/

theorem stringsSplit_no_sep (sep : Char) (u : List Char) (hu : sep ∉ u) :
    stringsSplit sep u = [u] := by
  induction u with
  | nil => rfl
  | cons c cs ih =>
    have hc : c ≠ sep := fun h => hu (by rw [h]; exact List.mem_cons_self _ _)
    have hcs : sep ∉ cs := fun h => hu (List.mem_cons_of_mem _ h)
    simp only [stringsSplit, hc, if_false, ih hcs]

theorem stringsSplit_at_sep (sep : Char) (u rest : List Char) (hu : sep ∉ u) :
    stringsSplit sep (u ++ sep :: rest) = u :: stringsSplit sep rest := by
  induction u with
  | nil => simp [stringsSplit]
  | cons c cs ih =>
    have hc : c ≠ sep := fun h => hu (by rw [h]; exact List.mem_cons_self _ _)
    have hcs : sep ∉ cs := fun h => hu (List.mem_cons_of_mem _ h)
    simp only [List.cons_append, stringsSplit, hc, if_false, List.append_eq, ih hcs]

theorem digitChar_digit (k : Nat) (hk : k < 10) :
    isDigitChar (Nat.digitChar k) = true ∧ (Nat.digitChar k).toNat - 48 = k := by
  interval_cases k <;> decide

/-- The digits that `Nat.toDigitsCore` puts in front of `ds` denote `n`. -/
theorem toDigitsCore_value (fuel n : Nat) (ds : List Char) (hfuel : n < fuel)
    (hds : ∀ c ∈ ds, isDigitChar c = true) :
    (∀ c ∈ Nat.toDigitsCore 10 fuel n ds, isDigitChar c = true) ∧
    Nat.toDigitsCore 10 fuel n ds ≠ [] ∧
    (Nat.toDigitsCore 10 fuel n ds).foldl (fun a c => a * 10 + (c.toNat - 48)) 0 =
      ds.foldl (fun a c => a * 10 + (c.toNat - 48)) n := by
  induction fuel generalizing n ds with
  | zero => omega
  | succ f ih =>
    obtain ⟨hd1, hd2⟩ := digitChar_digit (n % 10) (Nat.mod_lt _ (by decide))
    have hds2 : ∀ c ∈ Nat.digitChar (n % 10) :: ds, isDigitChar c = true := by
      intro c hc
      rcases List.mem_cons.mp hc with rfl | hc
      · exact hd1
      · exact hds c hc
    unfold Nat.toDigitsCore
    by_cases h0 : n / 10 = 0
    · simp only [h0, if_true]
      refine ⟨hds2, by simp, ?_⟩
      simp only [List.foldl_cons, hd2, Nat.zero_mul, Nat.zero_add]
      have : n % 10 = n := by omega
      rw [this]
    · simp only [h0, if_false]
      obtain ⟨i1, i2, i3⟩ := ih (n / 10) (Nat.digitChar (n % 10) :: ds) (by omega) hds2
      refine ⟨i1, i2, ?_⟩
      rw [i3]
      simp only [List.foldl_cons, hd2]
      have : n / 10 * 10 + n % 10 = n := by omega
      rw [this]

theorem Nat_repr_digits (n : Nat) :
    (Nat.repr n).toList ≠ [] ∧ (∀ c ∈ (Nat.repr n).toList, isDigitChar c = true) ∧
    decimalValue (Nat.repr n).toList = n := by
  obtain ⟨h1, h2, h3⟩ := toDigitsCore_value (n + 1) n [] (by omega) (by simp)
  exact ⟨h2, h1, h3⟩

theorem digit_ne_at_colon (c : Char) (h : isDigitChar c = true) : c ≠ '@' ∧ c ≠ ':' := by
  simp only [isDigitChar, decide_eq_true_eq] at h
  constructor
  · rintro rfl
    simp at h
  · rintro rfl
    simp at h

/-- `Atoi` reads back what `Itoa` wrote, for every value of Go's `int`; the
text holds no `@` and no `:`. -/
theorem atoi_itoa (p : Int) (h1 : -9223372036854775808 ≤ p) (h2 : p ≤ 9223372036854775807) :
    atoi (itoa p).toList = .ok p ∧ '@' ∉ (itoa p).toList ∧ ':' ∉ (itoa p).toList := by
  cases p with
  | ofNat n =>
    obtain ⟨hne, hdig, hval⟩ := Nat_repr_digits n
    have hrepr : (itoa (Int.ofNat n)).toList = (Nat.repr n).toList := rfl
    rw [hrepr]
    refine ⟨?_, ?_, ?_⟩
    · unfold atoi
      rw [parseInt_digits _ hne hdig, hval]
      have hn : n ≤ 9223372036854775807 := by
        have : (Int.ofNat n) = (n : Int) := rfl
        omega
      simp [hn]
    · intro hmem
      exact (digit_ne_at_colon _ (hdig _ hmem)).1 rfl
    · intro hmem
      exact (digit_ne_at_colon _ (hdig _ hmem)).2 rfl
  | negSucc m =>
    obtain ⟨hne, hdig, hval⟩ := Nat_repr_digits (m + 1)
    have hrepr : (itoa (Int.negSucc m)).toList = '-' :: (Nat.repr (m + 1)).toList := rfl
    rw [hrepr]
    have hm : m + 1 ≤ 9223372036854775808 := by
      have : Int.negSucc m = -((m : Int) + 1) := rfl
      omega
    refine ⟨?_, ?_, ?_⟩
    · have hloop := parseUintLoop_digits (Nat.repr (m + 1)).toList 0 hdig
      have hval2 : List.foldl (fun n c => n * 10 + (c.toNat - 48)) 0 (Nat.repr (m + 1)).toList =
          m + 1 := hval
      rw [hval2] at hloop
      have hfit : m + 1 ≤ maxUint64 := by
        unfold maxUint64
        omega
      simp only [hfit, true_or, if_true] at hloop
      obtain ⟨d, ds, hcons⟩ := List.exists_cons_of_ne_nil hne
      have hpu : parseUint (Nat.repr (m + 1)).toList = .ok (m + 1) := by
        rw [hcons] at hloop ⊢
        exact hloop
      have hgt : ¬ (9223372036854775808 < m + 1) := by omega
      have hpu2 : parseUint (Nat.repr (m + 1)).data = .ok (m + 1) := hpu
      have hneg : -((m : Int) + 1) = Int.negSucc m := rfl
      simp [atoi, parseInt, hpu2, hgt, hneg]
    · intro hmem
      rcases List.mem_cons.mp hmem with h | h
      · exact absurd h (by decide)
      · exact (digit_ne_at_colon _ (hdig _ h)).1 rfl
    · intro hmem
      rcases List.mem_cons.mp hmem with h | h
      · exact absurd h (by decide)
      · exact (digit_ne_at_colon _ (hdig _ h)).2 rfl

/-- `NewSSH` on the four shapes of `[user@]host[:port]`, given by their
parts. -/
theorem NewSSH_parts (user host q : List Char) (p : Int)
    (hu : '@' ∉ user) (hh : '@' ∉ host ∧ ':' ∉ host)
    (hq : atoi q = .ok p ∧ '@' ∉ q ∧ ':' ∉ q) :
    NewSSH (String.mk (user ++ '@' :: (host ++ ':' :: q))) =
      .ok { ConfigFile := "", Host := String.mk host, User := String.mk user, Port := p,
            Password := "", KeyFile := "", Options := [] } ∧
    NewSSH (String.mk (host ++ ':' :: q)) =
      .ok { ConfigFile := "", Host := String.mk host, User := "", Port := p,
            Password := "", KeyFile := "", Options := [] } ∧
    NewSSH (String.mk (user ++ '@' :: host)) =
      .ok { ConfigFile := "", Host := String.mk host, User := String.mk user, Port := 0,
            Password := "", KeyFile := "", Options := [] } ∧
    NewSSH (String.mk host) =
      .ok { ConfigFile := "", Host := String.mk host, User := "", Port := 0,
            Password := "", KeyFile := "", Options := [] } := by
  have htail : '@' ∉ host ++ ':' :: q := by
    intro hmem
    rcases List.mem_append.mp hmem with h | h
    · exact hh.1 h
    · rcases List.mem_cons.mp h with h | h
      · exact absurd h (by decide)
      · exact hq.2.1 h
  have hsplit : stringsSplit ':' (host ++ ':' :: q) = [host, q] := by
    rw [stringsSplit_at_sep ':' host q hh.2, stringsSplit_no_sep ':' q hq.2.2]
  have hsplit0 : stringsSplit ':' host = [host] := stringsSplit_no_sep ':' host hh.2
  refine ⟨?_, ?_, ?_, ?_⟩
  · unfold NewSSH
    simp only [String.toList]
    rw [stringsSplit_at_sep '@' user _ hu, stringsSplit_no_sep '@' _ htail]
    simp only [hsplit, hq.1]
  · unfold NewSSH
    simp only [String.toList]
    rw [stringsSplit_no_sep '@' _ htail]
    simp only [hsplit, hq.1]
  · unfold NewSSH
    simp only [String.toList]
    rw [stringsSplit_at_sep '@' user _ hu, stringsSplit_no_sep '@' _ hh.1]
    simp only [hsplit0]
  · unfold NewSSH
    simp only [String.toList]
    rw [stringsSplit_no_sep '@' _ hh.1]
    simp only [hsplit0]

/-- C15: for a user name and a host name with neither `@` nor `:` and every
port `p` of Go's `int` type written in decimal, `NewSSH` on
`user@hostname:p` returns no error and the `SSH` value with that user, host
and port; without the `user@` part `User` is empty, and without the `:p`
part `Port` is `0`. -/
theorem NewSSH_user_host_port (user hostname : String) (p : Int)
    (hu : '@' ∉ user.toList ∧ ':' ∉ user.toList)
    (hh : '@' ∉ hostname.toList ∧ ':' ∉ hostname.toList)
    (hp : -9223372036854775808 ≤ p ∧ p ≤ 9223372036854775807) :
    NewSSH (user ++ "@" ++ hostname ++ ":" ++ itoa p) =
      .ok { ConfigFile := "", Host := hostname, User := user, Port := p,
            Password := "", KeyFile := "", Options := [] } ∧
    NewSSH (hostname ++ ":" ++ itoa p) =
      .ok { ConfigFile := "", Host := hostname, User := "", Port := p,
            Password := "", KeyFile := "", Options := [] } ∧
    NewSSH (user ++ "@" ++ hostname) =
      .ok { ConfigFile := "", Host := hostname, User := user, Port := 0,
            Password := "", KeyFile := "", Options := [] } ∧
    NewSSH hostname =
      .ok { ConfigFile := "", Host := hostname, User := "", Port := 0,
            Password := "", KeyFile := "", Options := [] } := by
  obtain ⟨h1, h2, h3, h4⟩ := NewSSH_parts user.toList hostname.toList (itoa p).toList p
    hu.1 hh (atoi_itoa p hp.1 hp.2)
  have e1 : user ++ "@" ++ hostname ++ ":" ++ itoa p =
      String.mk (user.toList ++ '@' :: (hostname.toList ++ ':' :: (itoa p).toList)) := by
    apply String.ext
    simp [String.toList]
  have e2 : hostname ++ ":" ++ itoa p =
      String.mk (hostname.toList ++ ':' :: (itoa p).toList) := by
    apply String.ext
    simp [String.toList]
  have e3 : user ++ "@" ++ hostname = String.mk (user.toList ++ '@' :: hostname.toList) := by
    apply String.ext
    simp [String.toList]
  rw [e1, e2, e3]
  exact ⟨h1, h2, h3, h4⟩

/-- C15 at `root@backup:2222` and its three shorter forms. -/
theorem NewSSH_user_host_port_witness :
    (NewSSH "root@backup:2222" =
      .ok { ConfigFile := "", Host := "backup", User := "root", Port := 2222,
            Password := "", KeyFile := "", Options := [] } ∧
    NewSSH "backup:2222" =
      .ok { ConfigFile := "", Host := "backup", User := "", Port := 2222,
            Password := "", KeyFile := "", Options := [] } ∧
    NewSSH "root@backup" =
      .ok { ConfigFile := "", Host := "backup", User := "root", Port := 0,
            Password := "", KeyFile := "", Options := [] } ∧
    NewSSH "backup" =
      .ok { ConfigFile := "", Host := "backup", User := "", Port := 0,
            Password := "", KeyFile := "", Options := [] }) ∧
    "root" ++ "@" ++ "backup" ++ ":" ++ itoa 2222 = "root@backup:2222" :=
  ⟨NewSSH_user_host_port "root" "backup" 2222 (by decide) (by decide) (by decide), by decide⟩

/-! ## Claims about the discovery totals -/

theorem Consumes_litThen (s : List Char) (r : Regex) :
    ∀ (t : List Char) (c0 c1 : Caps), Consumes (litThen s r) t c0 c1 →
      ∃ t1, Consumes r t1 c0 c1 := by
  induction s with
  | nil =>
    intro t c0 c1 h
    exact ⟨t, h⟩
  | cons ch rest ih =>
    intro t c0 c1 h
    have hunf : litThen (ch :: rest) r = .cat (.lit ch) (litThen rest r) := rfl
    rw [hunf] at h
    cases h with
    | cat hl hr =>
      cases hl with
      | lit => exact ih _ _ _ hr

/-- In every match of a size announcement, capture slot 1 holds digit groups
joined by commas. -/
theorem announcement_search_slot (label : List Char) (s : List Char) (res : Caps)
    (h : (announcement label).regExp.search s = some res) :
    ∃ groups : List (List Char), groups ≠ [] ∧
      (∀ g ∈ groups, g ≠ [] ∧ ∀ x ∈ g, isDigitChar x = true) ∧
      res[1]? = some (some (joinGroups groups)) ∧ res.length = 3 := by
  obtain ⟨s1, hm⟩ := search_matchAt _ _ _ h
  unfold Regexp.matchAt at hm
  obtain ⟨t, s2, c1, _, hcons, hk⟩ := run_sound _ _ _ _ _ hm
  simp only [Option.some.injEq] at hk
  subst hk
  simp only [announcement] at hcons
  cases hcons with
  | group _ hbody =>
    obtain ⟨t1, hinner⟩ := Consumes_litThen _ _ _ _ _ hbody
    have hlen0 := Consumes_length hbody
    cases hinner with
    | cat hbc hrest =>
      obtain ⟨groups, hne, hdig, ht, hslot, hlen⟩ := Consumes_byteCount hbc
      have hframe := Consumes_frame 1 hrest (by decide)
      refine ⟨groups, hne, hdig, ?_, ?_⟩
      · rw [List.getElem?_set_ne (by decide), hframe, hslot,
          List.getElem?_set_self (by simp), ht]
      · rw [List.length_set, hlen0]
        simp

/-- When a size announcement matches a chunk, `Extract` with index 1 returns
digit groups joined by commas. -/
theorem announcement_Extract_grouped (label : List Char) (logStr : String)
    (h : (announcement label).Match logStr = true) :
    ∃ groups : List (List Char), groups ≠ [] ∧
      (∀ g ∈ groups, g ≠ [] ∧ ∀ x ∈ g, isDigitChar x = true) ∧
      (announcement label).Extract logStr 1 = some (String.mk (joinGroups groups)) := by
  unfold matcher.Match Regexp.Match at h
  cases hs : (announcement label).regExp.search logStr.toList with
  | none =>
    rw [hs] at h
    cases h
  | some res =>
    obtain ⟨groups, hne, hdig, hslot, hlen⟩ := announcement_search_slot _ _ _ hs
    refine ⟨groups, hne, hdig, ?_⟩
    have hw : wrapInt64 (1 + 1) = 2 := by decide
    simp only [matcher.Extract, Regexp.FindAllStringSubmatch1, hs, hw, Caps.strings,
      List.length_map, hlen, index?]
    simp [hslot]

theorem convertBytesNum_joinGroups_nonneg (groups : List (List Char)) (hne : groups ≠ [])
    (hd : ∀ g ∈ groups, g ≠ [] ∧ ∀ c ∈ g, isDigitChar c = true) :
    0 ≤ convertBytesNum (String.mk (joinGroups groups)) := by
  unfold convertBytesNum
  simp only [String.toList]
  rw [parseInt_joinGroups groups hne hd]
  by_cases hfit : decimalValue groups.flatten ≤ 9223372036854775807
  · simp [hfit]
  · simp [hfit]

theorem totalMatcher_eq : totalMatcher = announcement "Total file size: ".toList := rfl

theorem transMatcher_eq :
    transMatcher = announcement "Total transferred file size: ".toList := rfl

theorem scanTotal_nonneg (info i1 : Info) (logStr : String)
    (h : scanTotal info logStr = some i1) (hinv : TotalsNonneg info) : TotalsNonneg i1 := by
  unfold scanTotal at h
  split at h
  · rename_i hm
    rw [totalMatcher_eq] at hm h
    obtain ⟨groups, hne, hdig, hcap⟩ := announcement_Extract_grouped _ _ hm
    simp only [hcap, Option.map_some', Option.some.injEq] at h
    subst h
    exact ⟨convertBytesNum_joinGroups_nonneg groups hne hdig, hinv.2⟩
  · simp only [Option.some.injEq] at h
    subst h
    exact hinv

theorem scanTrans_nonneg (info i1 : Info) (logStr : String)
    (h : scanTrans info logStr = some i1) (hinv : TotalsNonneg info) : TotalsNonneg i1 := by
  unfold scanTrans at h
  split at h
  · rename_i hm
    rw [transMatcher_eq] at hm h
    obtain ⟨groups, hne, hdig, hcap⟩ := announcement_Extract_grouped _ _ hm
    simp only [hcap, Option.map_some', Option.some.injEq] at h
    subst h
    exact ⟨hinv.1, convertBytesNum_joinGroups_nonneg groups hne hdig⟩
  · simp only [Option.some.injEq] at h
    subst h
    exact hinv

theorem processStdoutChunk_nonneg (info : Info) (logStr : String) (hinv : TotalsNonneg info) :
    ∃ info1, processStdoutChunk info logStr = some info1 ∧ TotalsNonneg info1 := by
  obtain ⟨i1, h1, _⟩ := scanTotal_some info logStr
  obtain ⟨i2, h2, _⟩ := scanTrans_some i1 logStr
  obtain ⟨i3, h3, hr3⟩ := scanProgress_some i2 logStr
  obtain ⟨i4, h4, hr4, _⟩ := scanSpeed_some i3 logStr
  have hinv2 := scanTrans_nonneg i1 i2 logStr h2 (scanTotal_nonneg info i1 logStr h1 hinv)
  refine ⟨{ i4 with Log := { i4.Log with Stdout := i4.Log.Stdout ++ logStr } }, ?_, ?_⟩
  · simp only [processStdoutChunk, h1, h2, h3, h4, Option.some_bind, Option.map_some']
  · show 0 ≤ i4.RsyncState.Total ∧ 0 ≤ i4.RsyncState.Trans
    rw [hr4, hr3]
    exact hinv2

theorem processStdout_nonneg (info : Info) (chunks : List String) (hinv : TotalsNonneg info) :
    ∃ info1, processStdout info chunks = some info1 ∧ TotalsNonneg info1 := by
  induction chunks generalizing info with
  | nil => exact ⟨info, rfl, hinv⟩
  | cons chunk rest ih =>
    unfold processStdout
    by_cases hlen : chunk.length > 0
    · obtain ⟨i1, h1, hi1⟩ := processStdoutChunk_nonneg info chunk hinv
      simp only [hlen, if_true, h1]
      exact ih i1 hi1
    · simp only [hlen, if_false]
      exact ih info hinv

/-- C18 as stated fails: when a read ends inside the byte count of the
total-size line, that line is never matched, the next read sets `Trans`,
and the state has `Total = 0 < Trans = 1555052808`. -/
theorem Total_below_Trans_at_split_line :
    (processStdout NewInfo
      ["Number of files: 12\nTotal file size: 4,662,518,4",
        "18 bytes\nTotal transferred file size: 1,555,052,808 bytes\n"]).map
      (fun i => (i.RsyncState.Total, i.RsyncState.Trans)) = some (0, 1555052808) := by
  decide

/-- C18, as amended: in every state reachable from a fresh `Info` by
processing a sequence of stdout chunks with `processStdout`,
`RsyncState.Total ≥ 0` and `RsyncState.Trans ≥ 0`. -/
theorem totals_nonneg (chunks : List String) :
    ∃ info1, processStdout NewInfo chunks = some info1 ∧
      0 ≤ info1.RsyncState.Total ∧ 0 ≤ info1.RsyncState.Trans :=
  processStdout_nonneg NewInfo chunks ⟨by decide, by decide⟩

/-! ## Claims about repeated announcements in one chunk

The lemmas below follow the greedy path of the matcher: when the continuation
succeeds after the longest match, that is the result. -/

theorem take_prefix (t s1 : List Char) :
    List.take ((t ++ s1).length - s1.length) (t ++ s1) = t := by
  simp

theorem run_litThen (label : List Char) (r : Regex) (s : List Char) (c0 : Caps)
    (k : List Char → Caps → Option Caps) :
    (litThen label r).run (label ++ s) c0 k = r.run s c0 k := by
  induction label with
  | nil => rfl
  | cons ch rest ih =>
    have hunf : litThen (ch :: rest) r = .cat (.lit ch) (litThen rest r) := rfl
    rw [hunf]
    simp only [Regex.run, List.cons_append, if_true]
    exact ih

theorem starLoop_succ
    (step : List Char → Caps → (List Char → Caps → Option Caps) → Option Caps)
    (fuel : Nat) (s : List Char) (c0 : Caps) (k : List Char → Caps → Option Caps) :
    starLoop step (fuel + 1) s c0 k =
      match step s c0 (fun s1 c1 =>
          if s1.length < s.length then starLoop step fuel s1 c1 k else none) with
      | some r => some r
      | none => k s c0 := rfl

theorem digit_run_cons (x : Char) (xs : List Char) (c0 : Caps)
    (k : List Char → Caps → Option Caps) :
    Regex.digit.run (x :: xs) c0 k =
      if 48 ≤ x.toNat ∧ x.toNat ≤ 57 then k xs c0 else none := rfl

theorem lit_run_cons (ch x : Char) (xs : List Char) (c0 : Caps)
    (k : List Char → Caps → Option Caps) :
    (Regex.lit ch).run (x :: xs) c0 k = if x = ch then k xs c0 else none := rfl

theorem starDigits_success (ds tail : List Char) (c0 : Caps)
    (k : List Char → Caps → Option Caps) (r : Caps)
    (hds : ∀ x ∈ ds, isDigitChar x = true)
    (htail : ∀ x xs, tail = x :: xs → isDigitChar x = false)
    (hk : k tail c0 = some r) :
    ∀ fuel, ds.length ≤ fuel → starLoop Regex.digit.run fuel (ds ++ tail) c0 k = some r := by
  induction ds with
  | nil =>
    intro fuel _
    cases fuel with
    | zero => simpa [starLoop] using hk
    | succ f =>
      have hstep : ∀ K, Regex.digit.run tail c0 K = none := by
        intro K
        cases htl : tail with
        | nil => rfl
        | cons x xs =>
          have hx := htail x xs htl
          simp only [isDigitChar, decide_eq_false_iff_not] at hx
          rw [digit_run_cons, if_neg hx]
      rw [List.nil_append, starLoop_succ, hstep]
      exact hk
  | cons d rest ih =>
    intro fuel hfuel
    cases fuel with
    | zero => simp at hfuel
    | succ f =>
      have hd : 48 ≤ d.toNat ∧ d.toNat ≤ 57 := by
        simpa [isDigitChar] using hds d (List.mem_cons_self _ _)
      have hrest := ih (fun x hx => hds x (List.mem_cons_of_mem _ hx)) f
        (by simpa using hfuel)
      have hlen : (rest ++ tail).length < (d :: (rest ++ tail)).length := by simp
      rw [List.cons_append, starLoop_succ, digit_run_cons, if_pos hd, if_pos hlen, hrest]

theorem plusDigits_success (ds tail : List Char) (c0 : Caps)
    (k : List Char → Caps → Option Caps) (r : Caps) (hne : ds ≠ [])
    (hds : ∀ x ∈ ds, isDigitChar x = true)
    (htail : ∀ x xs, tail = x :: xs → isDigitChar x = false)
    (hk : k tail c0 = some r) :
    (Regex.plus .digit).run (ds ++ tail) c0 k = some r := by
  obtain ⟨d, rest, rfl⟩ := List.exists_cons_of_ne_nil hne
  have hd : 48 ≤ d.toNat ∧ d.toNat ≤ 57 := by
    simpa [isDigitChar] using hds d (List.mem_cons_self _ _)
  have hrest := starDigits_success rest tail c0 k r
    (fun x hx => hds x (List.mem_cons_of_mem _ hx)) htail hk ((rest ++ tail).length + 1)
    (by simp; omega)
  have hunf : (Regex.plus .digit).run (d :: (rest ++ tail)) c0 k =
      Regex.digit.run (d :: (rest ++ tail)) c0
        (fun s1 c1 => starLoop Regex.digit.run (s1.length + 1) s1 c1 k) := rfl
  rw [List.cons_append, hunf, digit_run_cons, if_pos hd]
  exact hrest

theorem commaTail_head (gs : List (List Char)) (tail : List Char)
    (htail : ∀ x xs, tail = x :: xs → isDigitChar x = false ∧ x ≠ ',') :
    ∀ x xs, commaTail gs ++ tail = x :: xs → isDigitChar x = false := by
  intro x xs h
  cases gs with
  | nil => exact (htail x xs h).1
  | cons g rest =>
    simp only [commaTail, List.cons_append, List.cons.injEq] at h
    rw [← h.1]
    decide

theorem commaTail_length (gs : List (List Char)) : gs.length ≤ (commaTail gs).length := by
  induction gs with
  | nil => simp [commaTail]
  | cons g rest ih =>
    simp only [commaTail, List.length_cons, List.length_append]
    omega

theorem group_run (i : Nat) (r : Regex) (s : List Char) (c0 : Caps)
    (k : List Char → Caps → Option Caps) :
    (Regex.group i r).run s c0 k =
      r.run s c0 (fun s1 c1 => k s1 (c1.set i (some (s.take (s.length - s1.length))))) := rfl

theorem cat_run (a b : Regex) (s : List Char) (c0 : Caps)
    (k : List Char → Caps → Option Caps) :
    (Regex.cat a b).run s c0 k = a.run s c0 (fun s1 c1 => b.run s1 c1 k) := rfl

theorem star_run (r : Regex) (s : List Char) (c0 : Caps)
    (k : List Char → Caps → Option Caps) :
    (Regex.star r).run s c0 k = starLoop r.run (s.length + 1) s c0 k := rfl

/-- The greedy path through `(,\d+)*`: all comma groups are taken. -/
theorem starGroups_success (gs : List (List Char)) (tail : List Char)
    (k : List Char → Caps → Option Caps) (r : Caps)
    (hgs : ∀ g ∈ gs, g ≠ [] ∧ ∀ x ∈ g, isDigitChar x = true)
    (htail : ∀ x xs, tail = x :: xs → isDigitChar x = false ∧ x ≠ ',') :
    ∀ (c0 : Caps) (fuel : Nat), gs.length ≤ fuel → k tail (capsAfter gs c0) = some r →
      starLoop (Regex.group 2 (.cat (.lit ',') (.plus .digit))).run fuel
        (commaTail gs ++ tail) c0 k = some r := by
  induction gs with
  | nil =>
    intro c0 fuel _ hk
    have hk2 : k tail c0 = some r := hk
    cases fuel with
    | zero => simpa [starLoop, commaTail] using hk2
    | succ f =>
      have hstep : ∀ K, (Regex.group 2 (.cat (.lit ',') (.plus .digit))).run tail c0 K =
          none := by
        intro K
        rw [group_run, cat_run]
        cases htl : tail with
        | nil => rfl
        | cons x xs =>
          rw [lit_run_cons, if_neg (htail x xs htl).2]
      have hnil : commaTail [] ++ tail = tail := rfl
      rw [hnil, starLoop_succ, hstep]
      exact hk2
  | cons g rest ih =>
    intro c0 fuel hfuel hk
    cases fuel with
    | zero => simp at hfuel
    | succ f =>
      have hg := hgs g (List.mem_cons_self _ _)
      have hrestgs : ∀ g1 ∈ rest, g1 ≠ [] ∧ ∀ x ∈ g1, isDigitChar x = true :=
        fun g1 h1 => hgs g1 (List.mem_cons_of_mem _ h1)
      have hshape : commaTail (g :: rest) ++ tail = ',' :: (g ++ (commaTail rest ++ tail)) := by
        simp [commaTail]
      have hnext := ih hrestgs (c0.set 2 (some (',' :: g))) f (by simpa using hfuel) hk
      have htake : List.take ((',' :: (g ++ (commaTail rest ++ tail))).length -
          (commaTail rest ++ tail).length) (',' :: (g ++ (commaTail rest ++ tail))) =
          ',' :: g := by
        have := take_prefix (',' :: g) (commaTail rest ++ tail)
        simpa using this
      have hlen : (commaTail rest ++ tail).length <
          (',' :: (g ++ (commaTail rest ++ tail))).length := by
        simp only [List.length_cons, List.length_append]
        omega
      rw [hshape, starLoop_succ, group_run, cat_run, lit_run_cons, if_pos rfl]
      rw [plusDigits_success g (commaTail rest ++ tail) c0 _ r hg.1 hg.2
        (commaTail_head rest tail htail)]
      rw [htake, if_pos hlen]
      exact hnext

/-- The greedy path through `\d+(,\d+)*` as group 1: the whole byte count is
taken and stored in slot 1. -/
theorem byteCount_success (g0 : List Char) (gs : List (List Char)) (tail : List Char)
    (k : List Char → Caps → Option Caps) (r c0 : Caps)
    (hg0 : g0 ≠ [] ∧ ∀ x ∈ g0, isDigitChar x = true)
    (hgs : ∀ g ∈ gs, g ≠ [] ∧ ∀ x ∈ g, isDigitChar x = true)
    (htail : ∀ x xs, tail = x :: xs → isDigitChar x = false ∧ x ≠ ',')
    (hk : k tail ((capsAfter gs c0).set 1 (some (joinGroups (g0 :: gs)))) = some r) :
    (byteCount 1).run (joinGroups (g0 :: gs) ++ tail) c0 k = some r := by
  have hshape : joinGroups (g0 :: gs) ++ tail = g0 ++ (commaTail gs ++ tail) := by
    rw [joinGroups_cons, List.append_assoc]
  have htake : List.take ((g0 ++ (commaTail gs ++ tail)).length - tail.length)
      (g0 ++ (commaTail gs ++ tail)) = joinGroups (g0 :: gs) := by
    have := take_prefix (joinGroups (g0 :: gs)) tail
    rw [hshape] at this
    exact this
  unfold byteCount
  rw [hshape, group_run, cat_run]
  apply plusDigits_success g0 (commaTail gs ++ tail) c0 _ r hg0.1 hg0.2
    (commaTail_head gs tail htail)
  rw [star_run]
  apply starGroups_success gs tail _ r hgs htail c0 _
    (by
      have := commaTail_length gs
      simp only [List.length_append]
      omega)
  rw [htake]
  exact hk

theorem capsAfter_length (gs : List (List Char)) (c0 : Caps) :
    (capsAfter gs c0).length = c0.length := by
  induction gs generalizing c0 with
  | nil => rfl
  | cons g rest ih =>
    have hunf : capsAfter (g :: rest) c0 = capsAfter rest (c0.set 2 (some (',' :: g))) := rfl
    rw [hunf, ih, List.length_set]

/-- A match attempt at the start of an announcement succeeds and stores the
whole byte count in slot 1, whatever follows the announcement. -/
theorem announcement_matchAt (label : List Char) (g0 : List Char) (gs : List (List Char))
    (rest : List Char)
    (hg0 : g0 ≠ [] ∧ ∀ x ∈ g0, isDigitChar x = true)
    (hgs : ∀ g ∈ gs, g ≠ [] ∧ ∀ x ∈ g, isDigitChar x = true) :
    ∃ res, (announcement label).regExp.matchAt
        (label ++ (joinGroups (g0 :: gs) ++ (" bytes".toList ++ rest))) = some res ∧
      res[1]? = some (some (joinGroups (g0 :: gs))) ∧ res.length = 3 := by
  have htail : ∀ x xs, " bytes".toList ++ rest = x :: xs →
      isDigitChar x = false ∧ x ≠ ',' := by
    intro x xs h
    have h2 : ' ' :: (" bytes".toList.tail ++ rest) = x :: xs := h
    simp only [List.cons.injEq] at h2
    rw [← h2.1]
    exact ⟨by decide, by decide⟩
  have hbytes : " bytes".toList ++ rest = " byte".toList ++ ('s' :: rest) := rfl
  refine ⟨(((capsAfter gs (List.replicate 3 none)).set 1 (some (joinGroups (g0 :: gs)))).set 0
    (some (List.take ((label ++ (joinGroups (g0 :: gs) ++ (" bytes".toList ++ rest))).length -
      rest.length) (label ++ (joinGroups (g0 :: gs) ++ (" bytes".toList ++ rest)))))), ?_, ?_, ?_⟩
  · show (Regex.group 0 (litThen label (.cat (byteCount 1)
        (litThen " byte".toList (.lit 's'))))).run _ (List.replicate 3 none) _ = _
    rw [group_run, run_litThen, cat_run]
    apply byteCount_success g0 gs _ _ _ _ hg0 hgs htail
    rw [hbytes, run_litThen, lit_run_cons, if_pos rfl]
  · rw [List.getElem?_set_ne (by decide), List.getElem?_set_self]
    rw [capsAfter_length]
    simp
  · rw [List.length_set, List.length_set, capsAfter_length]
    simp

theorem search_cons (re : Regexp) (x : Char) (xs : List Char) :
    re.search (x :: xs) =
      match re.matchAt (x :: xs) with
      | some c => some c
      | none => re.search xs := rfl

/-- A match of a literal text followed by `r` is that text followed by a
match of `r`. -/
theorem Consumes_litThen_text (s : List Char) (r : Regex) :
    ∀ (t : List Char) (c0 c1 : Caps), Consumes (litThen s r) t c0 c1 →
      ∃ t1, t = s ++ t1 ∧ Consumes r t1 c0 c1 := by
  induction s with
  | nil =>
    intro t c0 c1 h
    exact ⟨t, rfl, h⟩
  | cons ch rest ih =>
    intro t c0 c1 h
    have hunf : litThen (ch :: rest) r = .cat (.lit ch) (litThen rest r) := rfl
    rw [hunf] at h
    cases h with
    | cat hl hr =>
      cases hl with
      | lit =>
        obtain ⟨t1, ht, h1⟩ := ih _ _ _ hr
        exact ⟨t1, by rw [ht]; rfl, h1⟩

/-- A match attempt of a size announcement succeeds only where an
announcement starts. -/
theorem announcement_matchAt_text (label s : List Char) (res : Caps)
    (h : (announcement label).regExp.matchAt s = some res) :
    ∃ (gs : List (List Char)) (q : List Char), gs ≠ [] ∧
      (∀ g ∈ gs, g ≠ [] ∧ ∀ x ∈ g, isDigitChar x = true) ∧
      s = label ++ (joinGroups gs ++ (" bytes".toList ++ q)) := by
  unfold Regexp.matchAt at h
  obtain ⟨t, s2, c1, hs, hcons, _⟩ := run_sound _ _ _ _ _ h
  simp only [announcement] at hcons
  cases hcons with
  | group _ hbody =>
    obtain ⟨t1, ht, hinner⟩ := Consumes_litThen_text _ _ _ _ _ hbody
    cases hinner with
    | cat hbc hrest =>
      obtain ⟨gs, hne, hdig, htg, _, _⟩ := Consumes_byteCount hbc
      obtain ⟨t3, ht3, hlast⟩ := Consumes_litThen_text _ _ _ _ _ hrest
      cases hlast with
      | lit =>
        refine ⟨gs, s2, hne, hdig, ?_⟩
        rw [hs, ht, htg, ht3]
        simp

/-- The leftmost search passes over a prefix in which no match attempt
succeeds. -/
theorem search_skip (re : Regexp) (pre s : List Char)
    (h : ∀ p1 p2, pre = p1 ++ p2 → p2 ≠ [] → re.matchAt (p2 ++ s) = none) :
    re.search (pre ++ s) = re.search s := by
  induction pre with
  | nil => rfl
  | cons x rest ih =>
    have hfail : re.matchAt (x :: (rest ++ s)) = none :=
      h [] (x :: rest) rfl (List.cons_ne_nil _ _)
    rw [List.cons_append, search_cons, hfail]
    apply ih
    intro p1 p2 hp hne
    exact h (x :: p1) p2 (by rw [hp]; rfl) hne

/-- In a chunk `pre ++ label ++ count ++ " bytes" ++ rest` in which no
announcement starts inside `pre`, `Extract` with index 1 returns `count`,
the byte count of this first announcement. -/
theorem announcement_Extract_first (label pre rest : List Char)
    (groups : List (List Char)) (hne : groups ≠ [])
    (hd : ∀ g ∈ groups, g ≠ [] ∧ ∀ x ∈ g, isDigitChar x = true)
    (hfirst : NoAnnouncementBefore label
      (pre ++ (label ++ (joinGroups groups ++ (" bytes".toList ++ rest)))) pre.length) :
    (announcement label).Extract
      (String.mk (pre ++ (label ++ (joinGroups groups ++ (" bytes".toList ++ rest)))))
        1 = some (String.mk (joinGroups groups)) ∧
    (announcement label).Match
      (String.mk (pre ++ (label ++ (joinGroups groups ++ (" bytes".toList ++ rest)))))
        = true := by
  obtain ⟨g0, gs, rfl⟩ := List.exists_cons_of_ne_nil hne
  obtain ⟨res, hres, hslot, hlen⟩ := announcement_matchAt label g0 gs rest
    (hd g0 (List.mem_cons_self _ _)) (fun g hg => hd g (List.mem_cons_of_mem _ hg))
  have hskip : ∀ p1 p2, pre = p1 ++ p2 → p2 ≠ [] →
      (announcement label).regExp.matchAt
        (p2 ++ (label ++ (joinGroups (g0 :: gs) ++ (" bytes".toList ++ rest)))) = none := by
    intro p1 p2 hp hp2
    cases hm : (announcement label).regExp.matchAt
        (p2 ++ (label ++ (joinGroups (g0 :: gs) ++ (" bytes".toList ++ rest)))) with
    | none => rfl
    | some res2 =>
      exfalso
      obtain ⟨gs2, q, hne2, hd2, htext⟩ := announcement_matchAt_text _ _ _ hm
      have hle := hfirst p1 q gs2 hne2 hd2 (by rw [hp, List.append_assoc, htext])
      have hlen2 : 0 < p2.length := List.length_pos.mpr hp2
      rw [hp, List.length_append] at hle
      omega
  have hstart : (announcement label).regExp.search
      (label ++ (joinGroups (g0 :: gs) ++ (" bytes".toList ++ rest))) = some res := by
    cases hl : label ++ (joinGroups (g0 :: gs) ++ (" bytes".toList ++ rest)) with
    | nil =>
      rw [hl] at hres
      exact hres
    | cons x xs =>
      rw [hl] at hres
      rw [search_cons, hres]
  have hsearch : (announcement label).regExp.search
      (pre ++ (label ++ (joinGroups (g0 :: gs) ++ (" bytes".toList ++ rest)))) =
      some res := by
    rw [search_skip _ pre _ hskip, hstart]
  have hw : wrapInt64 (1 + 1) = 2 := by decide
  generalize pre ++ (label ++ (joinGroups (g0 :: gs) ++ (" bytes".toList ++ rest))) =
    chunk at hsearch ⊢
  constructor
  · simp only [matcher.Extract, Regexp.FindAllStringSubmatch1, String.toList, hsearch, hw,
      Caps.strings, List.length_map, hlen, index?]
    simp [hslot]
  · simp only [matcher.Match, Regexp.Match, String.toList, hsearch, Option.isSome_some]

/-- No announcement starts before position `n` when the label itself starts
at none of these positions. -/
theorem noAnnouncementBefore_of_label (label chunk : List Char) (n : Nat)
    (h : ∀ i, i < n → label.isPrefixOf (chunk.drop i) = false) :
    NoAnnouncementBefore label chunk n := by
  intro p q gs _ _ hchunk
  by_contra hlt
  have hi := h p.length (by omega)
  rw [hchunk, List.drop_left] at hi
  have hpre : label.isPrefixOf (label ++ (joinGroups gs ++ (" bytes".toList ++ q))) = true :=
    List.isPrefixOf_iff_prefix.mpr (List.prefix_append _ _)
  rw [hpre] at hi
  cases hi

/-- C19 as stated fails: on the chunk with the announcements `1 bytes` and
`2 bytes`, the step of `processStdout` leaves `RsyncState.Total = 1`, the
value of the first announcement. -/
theorem Total_is_first_announcement :
    totalMatcher.Extract "Total file size: 1 bytes\nTotal file size: 2 bytes\n" 1 = some "1" ∧
    (processStdoutChunk NewInfo "Total file size: 1 bytes\nTotal file size: 2 bytes\n").map
      (fun i => i.RsyncState.Total) = some 1 := by
  decide

/-- C19, as amended: first match wins. For every stdout chunk that contains
one or more total-size announcements, written as
`pre ++ "Total file size: N bytes" ++ rest` where no announcement starts
inside `pre`, `N` is digit groups joined by commas, and `rest` is arbitrary
(further announcements included), after the step of `processStdout`
`RsyncState.Total` is the value of `N`, the first announcement in the chunk
(`0` when that value does not fit `int64`). -/
theorem first_total_announcement_wins (info : Info) (pre rest : List Char)
    (groups : List (List Char)) (hne : groups ≠ [])
    (hd : ∀ g ∈ groups, g ≠ [] ∧ ∀ x ∈ g, isDigitChar x = true)
    (hfirst : NoAnnouncementBefore "Total file size: ".toList
      (pre ++ ("Total file size: ".toList ++ (joinGroups groups ++ (" bytes".toList ++ rest))))
      pre.length) :
    ∃ info1, processStdoutChunk info (String.mk (pre ++ ("Total file size: ".toList ++
        (joinGroups groups ++ (" bytes".toList ++ rest))))) = some info1 ∧
      info1.RsyncState.Total =
        if decimalValue groups.flatten ≤ 9223372036854775807 then
          (decimalValue groups.flatten : Int)
        else 0 := by
  have hm : totalMatcher = announcement "Total file size: ".toList := rfl
  obtain ⟨hext, hmatch⟩ := announcement_Extract_first "Total file size: ".toList pre rest
    groups hne hd hfirst
  rw [← hm] at hext hmatch
  generalize String.mk (pre ++ ("Total file size: ".toList ++
    (joinGroups groups ++ (" bytes".toList ++ rest)))) = logStr at hext hmatch ⊢
  have hconv : convertBytesNum (String.mk (joinGroups groups)) =
      if decimalValue groups.flatten ≤ 9223372036854775807 then
        (decimalValue groups.flatten : Int)
      else 0 := by
    unfold convertBytesNum
    simp only [String.toList]
    rw [parseInt_joinGroups groups hne hd]
    by_cases hfit : decimalValue groups.flatten ≤ 9223372036854775807
    · simp only [hfit, if_true]
    · simp only [hfit, if_false]
  obtain ⟨i1, h1, _⟩ := scanTotal_some info logStr
  have hT1 : i1.RsyncState.Total =
      if decimalValue groups.flatten ≤ 9223372036854775807 then
        (decimalValue groups.flatten : Int)
      else 0 := by
    have h1b := h1
    simp only [scanTotal, hmatch, if_true, hext, Option.map_some', hconv,
      Option.some.injEq] at h1b
    rw [← h1b]
  obtain ⟨i2, h2, _⟩ := scanTrans_some i1 logStr
  obtain ⟨ht2, _⟩ := scanTrans_keeps_total i1 i2 logStr h2
  obtain ⟨i3, h3, hr3⟩ := scanProgress_some i2 logStr
  obtain ⟨i4, h4, hr4, _⟩ := scanSpeed_some i3 logStr
  refine ⟨{ i4 with Log := { i4.Log with Stdout := i4.Log.Stdout ++ logStr } }, ?_, ?_⟩
  · simp only [processStdoutChunk, h1, h2, h3, h4, Option.some_bind, Option.map_some']
  · show i4.RsyncState.Total = _
    rw [hr4, hr3, ht2, hT1]

/-- C19, as amended, at the chunk with the announcements `1 bytes` and
`2 bytes`, and at the same chunk after the line `Transfer starting`, which
holds a `T` before the first announcement. -/
theorem first_total_announcement_wins_witness :
    (∃ info1, processStdoutChunk NewInfo
        "Total file size: 1 bytes\nTotal file size: 2 bytes\n" = some info1 ∧
      info1.RsyncState.Total = 1) ∧
    (∃ info1, processStdoutChunk NewInfo
        "Transfer starting\nTotal file size: 1 bytes\nTotal file size: 2 bytes\n" = some info1 ∧
      info1.RsyncState.Total = 1) :=
  ⟨first_total_announcement_wins NewInfo [] "\nTotal file size: 2 bytes\n".toList [['1']]
    (by decide) (by decide) (fun _ _ _ _ _ _ => Nat.zero_le _),
   first_total_announcement_wins NewInfo "Transfer starting\n".toList
    "\nTotal file size: 2 bytes\n".toList [['1']] (by decide) (by decide)
    (noAnnouncementBefore_of_label _ _ _ (by decide))⟩

end GoRsync
